import Mathlib

/-!
# Tactical board game engine (src/src/App.jsx)

A shallow embedding of the game logic of `App.jsx`: the unit catalogue, the
attack-area computation `calculateAttackIndices`, and the turn logic of
`executeAction`, followed by theorems about them.

Modelling conventions.
* Cell indices are natural numbers (the board component hands out `0..63`).
* A board is a JavaScript array of cells; a cell is `null`/`undefined`
  (`none`) or a unit object.  Reading past the end gives `undefined`, writing
  past the end extends the array.
* A document field that may be missing (`hostBoard`, `guestBoard`,
  `winner`, `lastMoveTime`) is an `Option`.
* Numbers that the code only adds, subtracts and compares on integers
  (hit points, damage, millisecond timestamps) are `Int`; the clocks, which
  are divided by 1000, are rationals.
* `Date.now()` is read once per command and passed in as `now`.
* The store hands every unit out as an object of its own, so an in-place
  change of one unit is a change of exactly one cell.
-/

namespace BT

/-! ## Constants and catalogue -/

def BOARD_SIZE : Nat := 8

def TOTAL_CELLS : Nat := 64

/-- The values of the `range` field of the catalogue. -/
inductive AttackRange where
  | single
  | row
  | diagonal
  | area4x4
  deriving DecidableEq, Repr

/-- The keys of `UNIT_TYPES`. -/
inductive UnitKey where
  | COMMANDER
  | TANK
  | JET
  | SNIPER
  | SCANNER
  | INFANTRY
  deriving DecidableEq, Repr

/-- One entry of `UNIT_TYPES` (the icon and the description text, which only
the rendering reads, are left out). -/
structure UnitStats where
  id : String
  name : String
  hp : Int
  dmg : Int
  range : AttackRange
  value : Nat
  canHeal : Bool
  deriving DecidableEq, Repr

def UNIT_TYPES : UnitKey → UnitStats
  | .COMMANDER => { id := "cmd", name := "Comandante", hp := 64, dmg := 100,
                    range := .single, value := 100, canHeal := false }
  | .TANK => { id := "tank", name := "Tanque", hp := 32, dmg := 2,
               range := .row, value := 50, canHeal := false }
  | .JET => { id := "jet", name := "Caza", hp := 20, dmg := 2,
              range := .diagonal, value := 40, canHeal := false }
  | .SNIPER => { id := "sniper", name := "Francotirador", hp := 15, dmg := 10,
                 range := .single, value := 30, canHeal := false }
  | .SCANNER => { id := "scanner", name := "Escáner", hp := 20, dmg := 1,
                  range := .area4x4, value := 25, canHeal := false }
  | .INFANTRY => { id := "inf", name := "Infantería", hp := 10, dmg := 16,
                   range := .single, value := 10, canHeal := true }

def INITIAL_ROSTER : List UnitKey :=
  [.COMMANDER, .TANK, .TANK, .JET, .JET, .SNIPER, .SNIPER, .SCANNER, .INFANTRY, .INFANTRY]

/-- The keys of `GAME_MODES`. -/
inductive GameMode where
  | BULLET
  | BLITZ
  | UNLIMITED
  deriving DecidableEq, Repr

/-- The `time` field of `GAME_MODES`, in seconds. -/
def GAME_MODES_time : GameMode → ℚ
  | .BULLET => 180
  | .BLITZ => 600
  | .UNLIMITED => 999999

/-! ## Utilities -/

/-- Board coordinates of a cell. -/
structure Coord where
  x : Nat
  y : Nat
  deriving DecidableEq, Repr

def getCoordinates (index : Nat) : Coord :=
  { x := index % BOARD_SIZE, y := index / BOARD_SIZE }

def getIndex (x y : Nat) : Nat := y * BOARD_SIZE + x

/-- The four diagonal directions, in the order of the source. -/
def directions : List (Int × Int) := [(-1, -1), (1, 1), (-1, 1), (1, -1)]

/-- The cells hit by an attack.  The coordinates of a cell are natural
numbers; the shifted coordinates `nx`, `ny` are integers, as they can leave the
board on the low side, and `getIndex` is only called under the bounds check,
where both are non-negative. -/
def calculateAttackIndices (originIdx targetIdx : Nat) (unitType : AttackRange) : List Nat :=
  let target := getCoordinates targetIdx
  let _origin := getCoordinates originIdx
  match unitType with
  | .single => [targetIdx]
  | .row => (List.range BOARD_SIZE).map (fun x => getIndex x target.y)
  | .diagonal =>
      targetIdx :: directions.flatMap (fun d =>
        ([1, 2] : List Int).filterMap (fun i =>
          let nx := (target.x : Int) + d.1 * i
          let ny := (target.y : Int) + d.2 * i
          if 0 ≤ nx ∧ nx < (BOARD_SIZE : Int) ∧ 0 ≤ ny ∧ ny < (BOARD_SIZE : Int)
          then some (getIndex nx.toNat ny.toNat) else none))
  | .area4x4 =>
      ([-1, 0, 1] : List Int).flatMap (fun dy =>
        ([-1, 0, 1] : List Int).filterMap (fun dx =>
          let nx := (target.x : Int) + dx
          let ny := (target.y : Int) + dy
          if 0 ≤ nx ∧ nx < (BOARD_SIZE : Int) ∧ 0 ≤ ny ∧ ny < (BOARD_SIZE : Int)
          then some (getIndex nx.toNat ny.toNat) else none))

/-! ## Match state -/

/-- A unit object on a board.  The flags `wasHit` and `revealedPosition` are
missing on a fresh unit, which reads as false. -/
structure GameUnit where
  type : UnitKey
  hp : Int
  maxHp : Int
  id : String
  wasHit : Bool
  revealedPosition : Bool
  deriving DecidableEq, Repr

/-- A board: an array of cells, each empty or holding a unit. -/
abbrev Board := List (Option GameUnit)

/-- Reads `board[idx]`; past the end the read is `undefined`. -/
def cellAt (board : Board) (idx : Nat) : Option GameUnit := board.getD idx none

/-- Performs `board[idx] = v`; past the end the array grows, the cells in
between being holes. -/
def setCell (board : Board) (idx : Nat) (v : Option GameUnit) : Board :=
  if idx < board.length then board.set idx v
  else board ++ List.replicate (idx - board.length) none ++ [v]

/-- The values of `role`. -/
inductive Role where
  | host
  | guest
  | spectator
  deriving DecidableEq, Repr

/-- The values of the `phase` field. -/
inductive Phase where
  | waiting
  | setup
  | playing
  | finished
  deriving DecidableEq, Repr

/-- The values of the `status` field. -/
inductive Status where
  | waiting
  | playing
  deriving DecidableEq, Repr

/-- One entry of `logs`. -/
structure LogEntry where
  text : String
  type : String
  time : Int
  deriving DecidableEq, Repr

/-- The game document (without `createdAt`, which no game logic reads). -/
structure Game where
  name : String
  hostId : String
  guestId : Option String
  status : Status
  mode : GameMode
  turn : Role
  phase : Phase
  hostReady : Bool
  guestReady : Bool
  logs : List LogEntry
  winner : Option Role
  hostTime : ℚ
  guestTime : ℚ
  lastMoveTime : Option Int
  hostBoard : Option Board
  guestBoard : Option Board
  deriving DecidableEq

/-- The object handed to `updateDoc` by the game commands: a field that is
`none` is not written. -/
structure Updates where
  guestId : Option String := none
  status : Option Status := none
  hostBoard : Option Board := none
  guestBoard : Option Board := none
  hostReady : Option Bool := none
  guestReady : Option Bool := none
  winner : Option Role := none
  phase : Option Phase := none
  turn : Option Role := none
  lastMoveTime : Option Int := none
  hostTime : Option ℚ := none
  guestTime : Option ℚ := none
  logs : Option (List LogEntry) := none
  deriving DecidableEq

/-- The effect of `updateDoc` on the document: the written fields replace the
stored ones, the others stay. -/
def applyUpdates (game : Game) (u : Updates) : Game :=
  { name := game.name
    hostId := game.hostId
    guestId := match u.guestId with
      | some v => some v
      | none => game.guestId
    status := u.status.getD game.status
    mode := game.mode
    turn := u.turn.getD game.turn
    phase := u.phase.getD game.phase
    hostReady := u.hostReady.getD game.hostReady
    guestReady := u.guestReady.getD game.guestReady
    logs := u.logs.getD game.logs
    winner := match u.winner with
      | some v => some v
      | none => game.winner
    hostTime := u.hostTime.getD game.hostTime
    guestTime := u.guestTime.getD game.guestTime
    lastMoveTime := match u.lastMoveTime with
      | some v => some v
      | none => game.lastMoveTime
    hostBoard := match u.hostBoard with
      | some v => some v
      | none => game.hostBoard
    guestBoard := match u.guestBoard with
      | some v => some v
      | none => game.guestBoard }

/-- The two board fields of the document. -/
inductive BoardKey where
  | hostBoard
  | guestBoard
  deriving DecidableEq, Repr

/-- Reads `game[key]`. -/
def Game.board (game : Game) : BoardKey → Option Board
  | .hostBoard => game.hostBoard
  | .guestBoard => game.guestBoard

/-- Performs `updates[key] = board`. -/
def Updates.setBoard (u : Updates) (key : BoardKey) (board : Board) : Updates :=
  match key with
  | .hostBoard => { u with hostBoard := some board }
  | .guestBoard => { u with guestBoard := some board }

/-- Reads `updates[key]`. -/
def Updates.board (u : Updates) : BoardKey → Option Board
  | .hostBoard => u.hostBoard
  | .guestBoard => u.guestBoard

def enemyBoardKey (role : Role) : BoardKey :=
  if role = .host then .guestBoard else .hostBoard

def myBoardKey (role : Role) : BoardKey :=
  if role = .host then .hostBoard else .guestBoard

/-- The text of `role` inside a template string. -/
def Role.toText : Role → String
  | .host => "host"
  | .guest => "guest"
  | .spectator => "spectator"

/-- The expression `role === 'host' ? 'Anfitrión' : 'Invitado'`. -/
def roleLabel (role : Role) : String :=
  if role = .host then "Anfitrión" else "Invitado"

/-! ## Turn logic -/

/-- The values of `actionType` that `executeAction` tests for. -/
inductive ActionType where
  | MOVE
  | ATTACK
  | HEAL
  deriving DecidableEq, Repr

/-- What one call of a command does: it returns without writing, it stops on
a `TypeError` (a board field is missing) without writing, or it sends one
update. -/
inductive Outcome where
  | noUpdate
  | threw
  | update (u : Updates)
  deriving DecidableEq

/-- The variables the `forEach` callback of an attack reads and writes. -/
structure AttackAcc where
  enemyBoard : Board
  newLogs : List LogEntry
  hitSomething : Bool
  revealedUnits : List String
  winner : Option Role
  phase : Option Phase
  deriving DecidableEq

/-- One call of the `forEach` callback of an attack, for the cell `idx`. -/
def attackStep (role : Role) (unitStats : UnitStats) (now : Int)
    (acc : AttackAcc) (idx : Nat) : AttackAcc :=
  match cellAt acc.enemyBoard idx with
  | none => acc
  | some u =>
    let hit : GameUnit := { u with hp := u.hp - unitStats.dmg, wasHit := true }
    if hit.hp ≤ 0 then
      let destroyedName := (UNIT_TYPES hit.type).name
      let killLog : LogEntry :=
        { text := "¡" ++ destroyedName ++ " enemigo eliminado por " ++ unitStats.name ++ "!",
          type := "kill", time := now }
      if hit.type = .COMMANDER then
        { enemyBoard := setCell acc.enemyBoard idx none
          newLogs := acc.newLogs ++ [killLog] ++
            [{ text := "¡El Comandante enemigo ha caído! Victoria para " ++ role.toText ++ ".",
               type := "win", time := now }]
          hitSomething := true
          revealedUnits := acc.revealedUnits ++ [destroyedName]
          winner := some role
          phase := some .finished }
      else
        { enemyBoard := setCell acc.enemyBoard idx none
          newLogs := acc.newLogs ++ [killLog]
          hitSomething := true
          revealedUnits := acc.revealedUnits ++ [destroyedName]
          winner := acc.winner
          phase := acc.phase }
    else
      { enemyBoard := setCell acc.enemyBoard idx (some hit)
        newLogs := acc.newLogs
        hitSomething := true
        revealedUnits := acc.revealedUnits
        winner := acc.winner
        phase := acc.phase }

/-- The `indices.forEach` loop of an attack. -/
def attackLoop (role : Role) (unitStats : UnitStats) (now : Int)
    (acc : AttackAcc) (indices : List Nat) : AttackAcc :=
  indices.foldl (attackStep role unitStats now) acc

/-- The variables of an attack before the loop: the copy of the enemy board,
the copy of the logs, `hitSomething = false`, `revealedUnits = []`, and no
`winner` or `phase` in `updates` yet. -/
def attackInit (enemyBoard : Board) (newLogs : List LogEntry) : AttackAcc :=
  { enemyBoard := enemyBoard, newLogs := newLogs, hitSomething := false,
    revealedUnits := [], winner := none, phase := none }

/-- The block `if (turnEnded) ...`: the fields added to `updates` before it is
sent. -/
def endTurn (game : Game) (role : Role) (now : Int) (updates : Updates)
    (newLogs : List LogEntry) : Updates :=
  let timeSpent : ℚ := ((now - game.lastMoveTime.getD 0 : Int) : ℚ) / 1000
  let u1 : Updates :=
    { updates with turn := some (if role = .host then .guest else .host), lastMoveTime := some now }
  let u2 : Updates :=
    if role = .host then { u1 with hostTime := some (max 0 (game.hostTime - timeSpent)) }
    else { u1 with guestTime := some (max 0 (game.guestTime - timeSpent)) }
  { u2 with logs := some newLogs }

/-- The command `executeAction(actionType, sourceIdx, targetIdx)` issued by
`role` on the document `game` at time `now`. -/
def executeAction (game : Game) (role : Role) (actionType : ActionType)
    (sourceIdx targetIdx : Nat) (now : Int) : Outcome :=
  if game.turn ≠ role then .noUpdate
  else if game.phase ≠ .playing then .noUpdate
  else
    let updates : Updates := {}
    let newLogs := game.logs
    match game.board (enemyBoardKey role), game.board (myBoardKey role) with
    | some enemyBoard, some myBoard =>
      match cellAt myBoard sourceIdx with
      | none => .noUpdate
      | some sourceUnit =>
        let unitStats := UNIT_TYPES sourceUnit.type
        match actionType with
        | .MOVE =>
          if (cellAt myBoard targetIdx).isSome then .noUpdate
          else
            let myBoard1 := setCell (setCell myBoard targetIdx (some sourceUnit)) sourceIdx none
            .update (endTurn game role now (updates.setBoard (myBoardKey role) myBoard1)
              (newLogs ++ [{ text := roleLabel role ++ " movió una unidad.",
                             type := "move", time := now }]))
        | .ATTACK =>
          let indices := calculateAttackIndices sourceIdx targetIdx unitStats.range
          let acc := attackLoop role unitStats now (attackInit enemyBoard newLogs) indices
          let myBoard1 :=
            setCell myBoard sourceIdx (some { sourceUnit with revealedPosition := true })
          let updates1 : Updates := { updates with winner := acc.winner, phase := acc.phase }
          let updates2 :=
            (updates1.setBoard (enemyBoardKey role) acc.enemyBoard).setBoard
              (myBoardKey role) myBoard1
          let newLogs1 :=
            if acc.winner.isSome then acc.newLogs
            else acc.newLogs ++
              [{ text := roleLabel role ++ " atacó con " ++ unitStats.name ++ ". " ++
                   (if acc.hitSomething then "¡IMPACTO!" else "Fallo."),
                 type := "attack", time := now }]
          .update (endTurn game role now updates2 newLogs1)
        | .HEAL =>
          if !unitStats.canHeal then .noUpdate
          else
            match cellAt myBoard targetIdx with
            | none => .noUpdate
            | some targetUnit =>
              if targetUnit.hp < targetUnit.maxHp then
                let healed : GameUnit :=
                  { targetUnit with hp := min (targetUnit.hp + 10) targetUnit.maxHp }
                let myBoard1 := setCell myBoard targetIdx (some healed)
                .update (endTurn game role now (updates.setBoard (myBoardKey role) myBoard1)
                  (newLogs ++ [{ text := roleLabel role ++ " realizó reparaciones de campo.",
                                 type := "heal", time := now }]))
              else .noUpdate
    | _, _ => .threw

/-- The document after the command: the update, when one is sent, is applied;
otherwise the document is the same. -/
def afterAction (game : Game) (role : Role) (actionType : ActionType)
    (sourceIdx targetIdx : Nat) (now : Int) : Game :=
  match executeAction game role actionType sourceIdx targetIdx now with
  | .update u => applyUpdates game u
  | _ => game

/-! ## Creation, setup and surrender -/

/-- The characters `String.prototype.trim` removes: the white space and line
terminator code points of the language. -/
def jsWhiteSpace (c : Char) : Bool :=
  c.toNat = 9 || c.toNat = 10 || c.toNat = 11 || c.toNat = 12 || c.toNat = 13 ||
  c.toNat = 32 || c.toNat = 160 || c.toNat = 5760 ||
  (8192 ≤ c.toNat && c.toNat ≤ 8202) ||
  c.toNat = 8232 || c.toNat = 8233 || c.toNat = 8239 || c.toNat = 8287 ||
  c.toNat = 12288 || c.toNat = 65279

/-- The test `!newGameName.trim()`: the trimmed name is empty when every
character of the name is white space. -/
def trimIsEmpty (newGameName : String) : Bool := newGameName.data.all jsWhiteSpace

/-- The document `createGame` adds for the user `uid`, or nothing when the name
is blank.  No board field is written. -/
def createGame (newGameName : String) (uid : String) (selectedMode : GameMode) : Option Game :=
  if trimIsEmpty newGameName then none
  else some
    { name := newGameName
      hostId := uid
      guestId := none
      status := .waiting
      mode := selectedMode
      turn := .host
      phase := .setup
      hostReady := false
      guestReady := false
      logs := []
      winner := none
      hostTime := GAME_MODES_time selectedMode
      guestTime := GAME_MODES_time selectedMode
      lastMoveTime := none
      hostBoard := none
      guestBoard := none }

/-- The update sent by `joinAsGuest(gId, uid)`. -/
def joinAsGuest (uid : String) : Updates :=
  { guestId := some uid, status := some .playing }

/-- The document after `joinAsGuest`. -/
def afterJoin (game : Game) (uid : String) : Game := applyUpdates game (joinAsGuest uid)

/-- The expression `setupBoard.filter(c => c !== null).length`: the number of
occupied cells of a board. -/
def placedCount (board : Board) : Nat := (board.filter (fun c => c.isSome)).length

/-- The cells `handleRandomize` places units in: `0..23` for the host,
`63, 62, ..., 40` otherwise. -/
def validIndices (role : Role) : List Nat :=
  if role = .host then (List.range 24).map (fun i => i)
  else (List.range 24).map (fun i => 63 - i)

/-- Performs `updates[readyField] = true`, where `readyField` is `hostReady`
for the host and `guestReady` otherwise. -/
def Updates.setReady (u : Updates) (role : Role) : Updates :=
  if role = .host then { u with hostReady := some true } else { u with guestReady := some true }

/-- Reads `game[readyField]`. -/
def Game.ready (game : Game) (role : Role) : Bool :=
  if role = .host then game.hostReady else game.guestReady

/-- The command `submitSetup()` issued by `role` with the local `setupBoard`
on the document `game`: the updates it sends, in order (none, one, or two). -/
def submitSetup (game : Game) (role : Role) (setupBoard : Board) (now : Int) : List Updates :=
  if placedCount setupBoard < INITIAL_ROSTER.length then []
  else
    let first : Updates := (({} : Updates).setBoard (myBoardKey role) setupBoard).setReady role
    if (role = .host ∧ game.guestReady = true) ∨ (role = .guest ∧ game.hostReady = true) then
      [first,
       { phase := some .playing
         lastMoveTime := some now
         logs := some
           [{ text := "¡La batalla ha comenzado! Fase de despliegue finalizada.",
              type := "sys", time := now }] }]
    else [first]

/-- The document after `submitSetup`: its updates applied in order. -/
def afterSetup (game : Game) (role : Role) (setupBoard : Board) (now : Int) : Game :=
  (submitSetup game role setupBoard now).foldl applyUpdates game

/-- The command `handleSurrender()` issued by `role`. -/
def handleSurrender (game : Game) (role : Role) (now : Int) : Outcome :=
  if game.phase = .finished then .noUpdate
  else
    let winner : Role := if role = .host then .guest else .host
    .update
      { phase := some .finished
        winner := some winner
        logs := some (game.logs ++
          [{ text := roleLabel role ++ " se ha rendido.", type := "end", time := now }]) }

/-- The document after `handleSurrender`. -/
def afterSurrender (game : Game) (role : Role) (now : Int) : Game :=
  match handleSurrender game role now with
  | .update u => applyUpdates game u
  | _ => game

/-- The commands a participant can issue on a match. -/
inductive Command where
  | join (uid : String)
  | setup (role : Role) (setupBoard : Board)
  | surrender (role : Role)
  | action (role : Role) (actionType : ActionType) (sourceIdx targetIdx : Nat)

/-- The document after a command issued at time `now`. -/
def runCommand (game : Game) (now : Int) : Command → Game
  | .join uid => afterJoin game uid
  | .setup role setupBoard => afterSetup game role setupBoard now
  | .surrender role => afterSurrender game role now
  | .action role actionType sourceIdx targetIdx =>
      afterAction game role actionType sourceIdx targetIdx now

/-- The place of a phase in the order `waiting, setup, playing, finished`. -/
def Phase.rank : Phase → Nat
  | .waiting => 0
  | .setup => 1
  | .playing => 2
  | .finished => 3

/-- The clock of the side `role` debits: `hostTime` for the host, `guestTime`
otherwise. -/
def Game.clock (game : Game) (role : Role) : ℚ :=
  if role = .host then game.hostTime else game.guestTime

/-- The clock `role` does not debit. -/
def Game.otherClock (game : Game) (role : Role) : ℚ :=
  if role = .host then game.guestTime else game.hostTime

/-! ## Following a unit through the turns -/

/-- The cell in which the unit of cell `i` of the board `key` stands after an
accepted action: a move carries the unit of the source cell of the mover's
board to the target cell; every other unit stays in its cell. -/
def cellAfterAction (role : Role) (actionType : ActionType) (sourceIdx targetIdx : Nat)
    (key : BoardKey) (i : Nat) : Nat :=
  if actionType = .MOVE ∧ key = myBoardKey role ∧ i = sourceIdx then targetIdx else i

/-- One call of `executeAction`: who issues it, with what arguments, and when. -/
structure Action where
  role : Role
  actionType : ActionType
  sourceIdx : Nat
  targetIdx : Nat
  now : Int

/-- The document after a sequence of calls of `executeAction`, each on the
document the previous one left. -/
def afterActions (game : Game) : List Action → Game
  | [] => game
  | a :: rest =>
      afterActions (afterAction game a.role a.actionType a.sourceIdx a.targetIdx a.now) rest

/-- The cell in which the unit of cell `i` of the board `key` stands after a
sequence of calls of `executeAction`, or `none` once its cell has been emptied
(the unit was destroyed).  A call that sends no update moves nothing. -/
def trackUnit (game : Game) (key : BoardKey) (i : Nat) : List Action → Option Nat
  | [] => some i
  | a :: rest =>
      match executeAction game a.role a.actionType a.sourceIdx a.targetIdx a.now with
      | .update u =>
          match (applyUpdates game u).board key with
          | some b =>
              if (cellAt b (cellAfterAction a.role a.actionType a.sourceIdx a.targetIdx key i)).isSome
              then trackUnit (applyUpdates game u) key
                (cellAfterAction a.role a.actionType a.sourceIdx a.targetIdx key i) rest
              else none
          | none => none
      | _ => trackUnit game key i rest

/-! ## Sample matches

Concrete documents on which the theorems below are instantiated. -/

/-- A fresh unit of the given type, as `handleRandomize` builds it, with the
given hit points. -/
def sampleUnit (type : UnitKey) (hp : Int) (id : String) : GameUnit :=
  { type := type, hp := hp, maxHp := (UNIT_TYPES type).hp, id := id,
    wasHit := false, revealedPosition := false }

/-- A board of 64 cells holding the given units at the given cells. -/
def sampleBoard (cells : List (Nat × GameUnit)) : Board :=
  cells.foldl (fun b p => setCell b p.1 (some p.2)) (List.replicate 64 none)

/-- A Blitz match in phase `playing` with the given boards, host to move, the
clocks started at time 0. -/
def sampleGame (hostBoard guestBoard : Board) : Game :=
  { name := "sample", hostId := "h", guestId := some "g", status := .playing, mode := .BLITZ,
    turn := .host, phase := .playing, hostReady := true, guestReady := true,
    logs := [], winner := none, hostTime := 600, guestTime := 600,
    lastMoveTime := some 0, hostBoard := some hostBoard, guestBoard := some guestBoard }

/-- The host's board of the sample matches: a Commander, a Sniper, an
Infantry, a Tank and a damaged Jet in the first row. -/
def sampleHostBoard : Board :=
  sampleBoard [(0, sampleUnit .COMMANDER 64 "h-cmd"), (1, sampleUnit .SNIPER 15 "h-snp"),
    (2, sampleUnit .INFANTRY 10 "h-inf"), (3, sampleUnit .TANK 32 "h-tnk"),
    (4, sampleUnit .JET 12 "h-jet")]

/-- A match in which the guest's Commander, at cell 60, is at full strength. -/
def sampleMatch : Game :=
  sampleGame sampleHostBoard
    (sampleBoard [(60, sampleUnit .COMMANDER 64 "g-cmd"), (61, sampleUnit .TANK 32 "g-tnk")])

/-- A match in which the guest's Commander, at cell 56, has 2 hit points left
and a Tank stands next to it, at cell 57. -/
def sampleEndgame : Game :=
  sampleGame sampleHostBoard
    (sampleBoard [(56, sampleUnit .COMMANDER 2 "g-cmd"), (57, sampleUnit .TANK 32 "g-tnk")])

/-- A match in phase `setup`, as `createGame` and `joinAsGuest` leave it:
nobody is ready and no board is stored. -/
def sampleLobby : Game :=
  { name := "sample", hostId := "h", guestId := some "g", status := .playing, mode := .BLITZ,
    turn := .host, phase := .setup, hostReady := false, guestReady := false,
    logs := [], winner := none, hostTime := 600, guestTime := 600,
    lastMoveTime := none, hostBoard := none, guestBoard := none }

/-- A board holding the ten units of the roster in the cells `first`,
`first + 1`, ..., `first + 9`. -/
def sampleRosterBoard (first : Nat) : Board :=
  sampleBoard (((List.range 10).zip INITIAL_ROSTER).map
    (fun p => (first + p.1, sampleUnit p.2 (UNIT_TYPES p.2).hp (UNIT_TYPES p.2).id)))

/-- A board holding eleven units: the roster in the cells `0..9` and one more
Infantry in cell 10. -/
def sampleCrowdedBoard : Board :=
  setCell (sampleRosterBoard 0) 10 (some (sampleUnit .INFANTRY 10 "extra"))

/-- The sample lobby after the guest has submitted the roster in the cells
`40..49` at time 1000 and the host has surrendered at time 2000: the match is
`finished`, the guest is ready, and the log holds the surrender. -/
def sampleSurrendered : Game :=
  afterSurrender (afterSetup sampleLobby .guest (sampleRosterBoard 40) 1000) .host 2000

/-- The effect of one call of the attack callback on the cell it visits, as
`attackStep` computes it: an empty cell stays empty, a unit loses `d` hit
points and is marked as hit, and is removed when none are left. -/
def hitCell (d : Int) : Option GameUnit → Option GameUnit
  | none => none
  | some u => if u.hp - d ≤ 0 then none else some { u with hp := u.hp - d, wasHit := true }

/-! ## Attack areas -/

/-- The attack area does not depend on the attacker's cell. -/
theorem calculateAttackIndices_origin (originIdx targetIdx : Nat) (unitType : AttackRange) :
    calculateAttackIndices originIdx targetIdx unitType
      = calculateAttackIndices 0 targetIdx unitType := by
  cases unitType <;> rfl

/-- On the board, every attack area lies on the board and lists no cell twice. -/
theorem attackIndices_onBoard_nodup :
    ∀ t < 64, ∀ r : AttackRange,
      (∀ i ∈ calculateAttackIndices 0 t r, i < 64) ∧ (calculateAttackIndices 0 t r).Nodup := by
  intro t ht r
  cases r <;> revert t <;> decide

/-- Membership in the diagonal area, read off the loops of the source. -/
theorem mem_diagonal_iff (o t c : Nat) :
    c ∈ calculateAttackIndices o t .diagonal ↔
      c = t ∨ ∃ d ∈ directions, ∃ i ∈ ([1, 2] : List Int),
        0 ≤ ((getCoordinates t).x : Int) + d.1 * i ∧
        ((getCoordinates t).x : Int) + d.1 * i < 8 ∧
        0 ≤ ((getCoordinates t).y : Int) + d.2 * i ∧
        ((getCoordinates t).y : Int) + d.2 * i < 8 ∧
        c = getIndex (((getCoordinates t).x : Int) + d.1 * i).toNat
              (((getCoordinates t).y : Int) + d.2 * i).toNat := by
  simp only [calculateAttackIndices, List.mem_cons, List.mem_flatMap, List.mem_filterMap]
  constructor
  · rintro (h | ⟨d, hd, i, hi, h⟩)
    · exact Or.inl h
    · right
      refine ⟨d, hd, i, hi, ?_⟩
      split at h
      · rename_i hg
        simp only [BOARD_SIZE] at hg
        simp at h
        exact ⟨hg.1, by exact_mod_cast hg.2.1, hg.2.2.1, by exact_mod_cast hg.2.2.2, h.symm⟩
      · simp at h
  · rintro (h | ⟨d, hd, i, hi, h1, h2, h3, h4, h5⟩)
    · exact Or.inl h
    · right
      refine ⟨d, hd, i, hi, ?_⟩
      rw [if_pos]
      · rw [h5]
      · exact ⟨h1, by simpa [BOARD_SIZE] using h2, h3, by simpa [BOARD_SIZE] using h4⟩

/-- Every cell of the diagonal area is on a diagonal of the target, at most
two steps away. -/
theorem diagonal_sound :
    ∀ t < 64, ∀ c ∈ calculateAttackIndices 0 t .diagonal,
      (((getCoordinates c).x : Int) - (getCoordinates t).x).natAbs
          = (((getCoordinates c).y : Int) - (getCoordinates t).y).natAbs ∧
        (((getCoordinates c).x : Int) - (getCoordinates t).x).natAbs ≤ 2 := by
  decide

/-- Every cell of the board on a diagonal of the target, at most two steps
away, is in the diagonal area. -/
theorem diagonal_complete :
    ∀ t < 64, ∀ c < 64,
      (((getCoordinates c).x : Int) - (getCoordinates t).x).natAbs
          = (((getCoordinates c).y : Int) - (getCoordinates t).y).natAbs ∧
        (((getCoordinates c).x : Int) - (getCoordinates t).x).natAbs ≤ 2 →
      c ∈ calculateAttackIndices 0 t .diagonal := by
  decide

/-- Every cell of the square area is at most one step from the target in each
coordinate. -/
theorem area_sound :
    ∀ t < 64, ∀ c ∈ calculateAttackIndices 0 t .area4x4,
      (((getCoordinates c).x : Int) - (getCoordinates t).x).natAbs ≤ 1 ∧
        (((getCoordinates c).y : Int) - (getCoordinates t).y).natAbs ≤ 1 := by
  decide

/-- Every cell of the board at most one step from the target in each
coordinate is in the square area. -/
theorem area_complete :
    ∀ t < 64, ∀ c < 64,
      (((getCoordinates c).x : Int) - (getCoordinates t).x).natAbs ≤ 1 ∧
        (((getCoordinates c).y : Int) - (getCoordinates t).y).natAbs ≤ 1 →
      c ∈ calculateAttackIndices 0 t .area4x4 := by
  decide

/-- The size of the square area: 9 inside the board, 6 on an edge, 4 in a
corner. -/
theorem area_length :
    ∀ t < 64,
      4 ≤ (calculateAttackIndices 0 t .area4x4).length ∧
      (calculateAttackIndices 0 t .area4x4).length ≤ 9 ∧
      ((1 ≤ (getCoordinates t).x ∧ (getCoordinates t).x ≤ 6 ∧
          1 ≤ (getCoordinates t).y ∧ (getCoordinates t).y ≤ 6) →
        (calculateAttackIndices 0 t .area4x4).length = 9) ∧
      ((((getCoordinates t).x = 0 ∨ (getCoordinates t).x = 7) ∧
          1 ≤ (getCoordinates t).y ∧ (getCoordinates t).y ≤ 6) ∨
        (((getCoordinates t).y = 0 ∨ (getCoordinates t).y = 7) ∧
          1 ≤ (getCoordinates t).x ∧ (getCoordinates t).x ≤ 6) →
        (calculateAttackIndices 0 t .area4x4).length = 6) ∧
      ((((getCoordinates t).x = 0 ∨ (getCoordinates t).x = 7) ∧
          ((getCoordinates t).y = 0 ∨ (getCoordinates t).y = 7)) →
        (calculateAttackIndices 0 t .area4x4).length = 4) := by
  decide

/-- The diagonal area has at most nine cells. -/
theorem diagonal_length :
    ∀ t < 64, (calculateAttackIndices 0 t .diagonal).length ≤ 9 := by
  decide

/-- C1: for a target on the board and any origin, the `row` pattern returns
exactly the 8 cells of the target's row, `getIndex x (target / 8)` for
`x = 0..7`, each once; a cell is in the result exactly when it is a cell of the
board with the target's `y`; for the target `(3, 4)` these are
`(0,4) ... (7,4)`. -/
theorem calculateAttackIndices_row_spec (originIdx targetIdx : Nat)
    (h : targetIdx < TOTAL_CELLS) :
    calculateAttackIndices originIdx targetIdx .row
        = [getIndex 0 (targetIdx / 8), getIndex 1 (targetIdx / 8), getIndex 2 (targetIdx / 8),
           getIndex 3 (targetIdx / 8), getIndex 4 (targetIdx / 8), getIndex 5 (targetIdx / 8),
           getIndex 6 (targetIdx / 8), getIndex 7 (targetIdx / 8)] ∧
      (calculateAttackIndices originIdx targetIdx .row).length = 8 ∧
      (calculateAttackIndices originIdx targetIdx .row).Nodup ∧
      (∀ i, i ∈ calculateAttackIndices originIdx targetIdx .row ↔
        i < TOTAL_CELLS ∧ (getCoordinates i).y = (getCoordinates targetIdx).y) ∧
      calculateAttackIndices originIdx (getIndex 3 4) .row
        = [getIndex 0 4, getIndex 1 4, getIndex 2 4, getIndex 3 4,
           getIndex 4 4, getIndex 5 4, getIndex 6 4, getIndex 7 4] := by
  have hlist : calculateAttackIndices originIdx targetIdx .row
      = [getIndex 0 (targetIdx / 8), getIndex 1 (targetIdx / 8), getIndex 2 (targetIdx / 8),
         getIndex 3 (targetIdx / 8), getIndex 4 (targetIdx / 8), getIndex 5 (targetIdx / 8),
         getIndex 6 (targetIdx / 8), getIndex 7 (targetIdx / 8)] := rfl
  have ht : targetIdx < 64 := h
  refine ⟨hlist, by rw [hlist]; rfl, ?_, ?_, rfl⟩
  · rw [calculateAttackIndices_origin]
    exact (attackIndices_onBoard_nodup targetIdx ht .row).2
  · intro i
    rw [hlist]
    simp only [List.mem_cons, List.mem_singleton, List.not_mem_nil, or_false, getIndex,
      getCoordinates, BOARD_SIZE, TOTAL_CELLS]
    omega

/-- C1 at the target `(3, 4)`, index 35, attacked from cell 0. -/
theorem calculateAttackIndices_row_spec_witness :
    (35 < TOTAL_CELLS) ∧
      calculateAttackIndices 0 35 .row = [32, 33, 34, 35, 36, 37, 38, 39] :=
  ⟨by decide, (calculateAttackIndices_row_spec 0 35 (by decide)).1⟩

/-- C2: for a target on the board, the `diagonal` pattern returns, as a set,
the target cell and every cell `(tx + dx*i, ty + dy*i)`, for the four diagonal
directions and `i = 1, 2`, that is on the board: the cells of the board on a
diagonal of the target at most two steps away.  No cell is listed twice and
there are at most 9; for the target `(4, 4)` they are the nine cells of the
specification. -/
theorem calculateAttackIndices_diagonal_spec (originIdx targetIdx : Nat)
    (h : targetIdx < TOTAL_CELLS) :
    (∀ c, c ∈ calculateAttackIndices originIdx targetIdx .diagonal ↔
        c = targetIdx ∨ ∃ d ∈ directions, ∃ i ∈ ([1, 2] : List Int),
          0 ≤ ((getCoordinates targetIdx).x : Int) + d.1 * i ∧
          ((getCoordinates targetIdx).x : Int) + d.1 * i < 8 ∧
          0 ≤ ((getCoordinates targetIdx).y : Int) + d.2 * i ∧
          ((getCoordinates targetIdx).y : Int) + d.2 * i < 8 ∧
          c = getIndex (((getCoordinates targetIdx).x : Int) + d.1 * i).toNat
                (((getCoordinates targetIdx).y : Int) + d.2 * i).toNat) ∧
      (∀ c, c ∈ calculateAttackIndices originIdx targetIdx .diagonal ↔
        c < TOTAL_CELLS ∧
          (((getCoordinates c).x : Int) - (getCoordinates targetIdx).x).natAbs
            = (((getCoordinates c).y : Int) - (getCoordinates targetIdx).y).natAbs ∧
          (((getCoordinates c).x : Int) - (getCoordinates targetIdx).x).natAbs ≤ 2) ∧
      (calculateAttackIndices originIdx targetIdx .diagonal).Nodup ∧
      (calculateAttackIndices originIdx targetIdx .diagonal).length ≤ 9 ∧
      calculateAttackIndices originIdx (getIndex 4 4) .diagonal
        = [getIndex 4 4, getIndex 3 3, getIndex 2 2, getIndex 5 5, getIndex 6 6,
           getIndex 3 5, getIndex 2 6, getIndex 5 3, getIndex 6 2] := by
  have ht : targetIdx < 64 := h
  refine ⟨fun c => mem_diagonal_iff originIdx targetIdx c, ?_, ?_, ?_,
    by rw [calculateAttackIndices_origin]; decide⟩
  · intro c
    rw [calculateAttackIndices_origin]
    constructor
    · intro hc
      exact ⟨(attackIndices_onBoard_nodup targetIdx ht .diagonal).1 c hc,
        diagonal_sound targetIdx ht c hc⟩
    · rintro ⟨hc, hd⟩
      exact diagonal_complete targetIdx ht c hc hd
  · rw [calculateAttackIndices_origin]
    exact (attackIndices_onBoard_nodup targetIdx ht .diagonal).2
  · rw [calculateAttackIndices_origin]
    exact diagonal_length targetIdx ht

/-- C2 at the corner target `(0, 0)`: only one diagonal stays on the board. -/
theorem calculateAttackIndices_diagonal_spec_witness :
    (0 < TOTAL_CELLS) ∧ (calculateAttackIndices 5 0 .diagonal).length ≤ 9 :=
  ⟨by decide, (calculateAttackIndices_diagonal_spec 5 0 (by decide)).2.2.2.1⟩

/-- C3: for a target on the board, the `area4x4` pattern returns, as a set, the
cells of the board at most one step from the target in each coordinate (the
3x3 block clipped to the board), each once: between 4 and 9 cells, 9 for an
interior target, 6 on an edge, 4 in a corner; for the target `(0, 0)` they are
`(0,0), (1,0), (0,1), (1,1)`. -/
theorem calculateAttackIndices_area_spec (originIdx targetIdx : Nat)
    (h : targetIdx < TOTAL_CELLS) :
    (∀ c, c ∈ calculateAttackIndices originIdx targetIdx .area4x4 ↔
        c < TOTAL_CELLS ∧
          (((getCoordinates c).x : Int) - (getCoordinates targetIdx).x).natAbs ≤ 1 ∧
          (((getCoordinates c).y : Int) - (getCoordinates targetIdx).y).natAbs ≤ 1) ∧
      (calculateAttackIndices originIdx targetIdx .area4x4).Nodup ∧
      4 ≤ (calculateAttackIndices originIdx targetIdx .area4x4).length ∧
      (calculateAttackIndices originIdx targetIdx .area4x4).length ≤ 9 ∧
      ((1 ≤ (getCoordinates targetIdx).x ∧ (getCoordinates targetIdx).x ≤ 6 ∧
          1 ≤ (getCoordinates targetIdx).y ∧ (getCoordinates targetIdx).y ≤ 6) →
        (calculateAttackIndices originIdx targetIdx .area4x4).length = 9) ∧
      ((((getCoordinates targetIdx).x = 0 ∨ (getCoordinates targetIdx).x = 7) ∧
          1 ≤ (getCoordinates targetIdx).y ∧ (getCoordinates targetIdx).y ≤ 6) ∨
        (((getCoordinates targetIdx).y = 0 ∨ (getCoordinates targetIdx).y = 7) ∧
          1 ≤ (getCoordinates targetIdx).x ∧ (getCoordinates targetIdx).x ≤ 6) →
        (calculateAttackIndices originIdx targetIdx .area4x4).length = 6) ∧
      ((((getCoordinates targetIdx).x = 0 ∨ (getCoordinates targetIdx).x = 7) ∧
          ((getCoordinates targetIdx).y = 0 ∨ (getCoordinates targetIdx).y = 7)) →
        (calculateAttackIndices originIdx targetIdx .area4x4).length = 4) ∧
      calculateAttackIndices originIdx (getIndex 0 0) .area4x4
        = [getIndex 0 0, getIndex 1 0, getIndex 0 1, getIndex 1 1] := by
  have ht : targetIdx < 64 := h
  have hl := area_length targetIdx ht
  rw [calculateAttackIndices_origin originIdx targetIdx]
  refine ⟨?_, (attackIndices_onBoard_nodup targetIdx ht .area4x4).2, hl.1, hl.2.1, hl.2.2.1,
    hl.2.2.2.1, hl.2.2.2.2, by rw [calculateAttackIndices_origin]; decide⟩
  intro c
  constructor
  · intro hc
    exact ⟨(attackIndices_onBoard_nodup targetIdx ht .area4x4).1 c hc,
      area_sound targetIdx ht c hc⟩
  · rintro ⟨hc, hd⟩
    exact area_complete targetIdx ht c hc hd

/-- C3 at the edge target `(3, 0)`, index 3: six cells. -/
theorem calculateAttackIndices_area_spec_witness :
    (3 < TOTAL_CELLS) ∧ (calculateAttackIndices 60 3 .area4x4).length = 6 :=
  ⟨by decide, (calculateAttackIndices_area_spec 60 3 (by decide)).2.2.2.2.2.1
    (Or.inr ⟨Or.inl (by decide), by decide, by decide⟩)⟩

/-- C4: for each of the four patterns, every origin and every target on the
board, the list returned by `calculateAttackIndices` holds only indices below
64 and holds no index twice. -/
theorem calculateAttackIndices_bounds_nodup (unitType : AttackRange)
    (originIdx targetIdx : Nat) (h : targetIdx < TOTAL_CELLS) :
    (∀ i ∈ calculateAttackIndices originIdx targetIdx unitType, i < TOTAL_CELLS) ∧
      (calculateAttackIndices originIdx targetIdx unitType).Nodup := by
  rw [calculateAttackIndices_origin]
  exact attackIndices_onBoard_nodup targetIdx h unitType

/-- C4 for a Jet attack on the corner cell 63 from cell 10. -/
theorem calculateAttackIndices_bounds_nodup_witness :
    (63 < TOTAL_CELLS) ∧
      (∀ i ∈ calculateAttackIndices 10 63 .diagonal, i < TOTAL_CELLS) ∧
      (calculateAttackIndices 10 63 .diagonal).Nodup :=
  ⟨by decide, calculateAttackIndices_bounds_nodup .diagonal 10 63 (by decide)⟩

/-! ## Boards and the attack loop -/

/-- Reading a cell after a write. -/
theorem cellAt_setCell (board : Board) (i j : Nat) (v : Option GameUnit) :
    cellAt (setCell board i v) j = if j = i then v else cellAt board j := by
  unfold cellAt setCell
  simp only [List.getD_eq_getElem?_getD]
  split
  · rename_i h
    rw [List.getElem?_set]
    by_cases hji : j = i
    · subst hji; simp [h]
    · have : ¬ i = j := fun e => hji e.symm
      simp [hji, this]
  · rename_i h
    have hle : board.length ≤ i := Nat.le_of_not_lt h
    by_cases hji : j = i
    · subst hji
      rw [if_pos rfl, List.append_assoc, List.getElem?_append_right hle,
        List.getElem?_append_right (by simp)]
      simp
    · rw [if_neg hji]
      by_cases hj : j < board.length
      · rw [List.append_assoc, List.getElem?_append_left hj]
      · have hj2 : board.length ≤ j := Nat.le_of_not_lt hj
        rw [List.getElem?_eq_none hj2, List.append_assoc, List.getElem?_append_right hj2]
        by_cases hj3 : j - board.length < i - board.length
        · rw [List.getElem?_append_left (by simpa using hj3)]
          simp [List.getElem?_replicate, hj3]
        · rw [List.getElem?_append_right (by simp; omega)]
          have : j - board.length - (List.replicate (i - board.length) (none : Option GameUnit)).length ≠ 0 := by
            simp; omega
          obtain ⟨k, hk⟩ := Nat.exists_eq_succ_of_ne_zero this
          rw [hk]; simp

/-- One call of the callback changes the visited cell by one hit and no
other cell. -/
theorem attackStep_cell (role : Role) (st : UnitStats) (now : Int) (acc : AttackAcc)
    (idx j : Nat) :
    cellAt (attackStep role st now acc idx).enemyBoard j
      = if j = idx then hitCell st.dmg (cellAt acc.enemyBoard idx) else cellAt acc.enemyBoard j := by
  unfold attackStep
  cases hc : cellAt acc.enemyBoard idx with
  | none =>
    by_cases hj : j = idx
    · subst hj; simp [hc, hitCell]
    · simp [hj]
  | some u =>
    simp only [hitCell]
    by_cases hd : u.hp - st.dmg ≤ 0
    · simp only [hd, if_true]
      split <;> simp [cellAt_setCell]
    · simp only [hd, if_false]
      simp [cellAt_setCell]

/-- After the loop a cell has taken as many hits as the list names it. -/
theorem attackLoop_cell (role : Role) (st : UnitStats) (now : Int) (indices : List Nat) :
    ∀ (acc : AttackAcc) (j : Nat),
    cellAt (attackLoop role st now acc indices).enemyBoard j
      = (hitCell st.dmg)^[indices.count j] (cellAt acc.enemyBoard j) := by
  induction indices with
  | nil => intro acc j; simp [attackLoop]
  | cons a l ih =>
    intro acc j
    have := ih (attackStep role st now acc a) j
    simp only [attackLoop, List.foldl_cons] at this ⊢
    rw [this, attackStep_cell]
    by_cases hj : j = a
    · subst hj; simp [List.count_cons_self, Function.iterate_succ_apply]
    · have : ¬ a = j := fun e => hj e.symm
      simp [hj, List.count_cons, this]

/-- No attack area lists a cell twice, for targets up to row 9. -/
theorem nodup_small : ∀ t < 80, ∀ r : AttackRange, (calculateAttackIndices 0 t r).Nodup := by
  intro t ht r
  cases r <;> revert t <;> decide

/-- From row 10 on, the diagonal area is the target alone. -/
theorem diag_far (t : Nat) (h : 80 ≤ t) : calculateAttackIndices 0 t .diagonal = [t] := by
  have h10 : 10 ≤ t / 8 := by omega
  unfold calculateAttackIndices
  simp only [List.cons.injEq, true_and]
  rw [List.flatMap_eq_nil_iff]
  intro d hd
  rw [List.filterMap_eq_nil_iff]
  intro i hi
  have hd2 : d.2 = -1 ∨ d.2 = 1 := by
    simp only [directions, List.mem_cons, List.mem_singleton, List.not_mem_nil, or_false] at hd
    rcases hd with rfl | rfl | rfl | rfl <;> simp
  have hi2 : i = 1 ∨ i = 2 := by simpa using hi
  simp only [getCoordinates, BOARD_SIZE]
  rw [if_neg]
  rintro ⟨_, _, _, h4⟩
  rcases hd2 with e | e <;> rcases hi2 with e2 | e2 <;> rw [e, e2] at h4 <;>
    push_cast at h4 <;> omega

/-- From row 10 on, the square area is empty. -/
theorem area_far (t : Nat) (h : 80 ≤ t) : calculateAttackIndices 0 t .area4x4 = [] := by
  have h10 : 10 ≤ t / 8 := by omega
  unfold calculateAttackIndices
  simp only
  rw [List.flatMap_eq_nil_iff]
  intro dy hdy
  rw [List.filterMap_eq_nil_iff]
  intro dx _
  have hd2 : dy = -1 ∨ dy = 0 ∨ dy = 1 := by simpa using hdy
  simp only [getCoordinates, BOARD_SIZE]
  rw [if_neg]
  rintro ⟨_, _, _, h4⟩
  rcases hd2 with e | e | e <;> rw [e] at h4 <;> push_cast at h4 <;> omega

/-- No attack area lists a cell twice, whatever the target. -/
theorem attackIndices_nodup (o t : Nat) (r : AttackRange) : (calculateAttackIndices o t r).Nodup := by
  rw [calculateAttackIndices_origin]
  by_cases ht : t < 80
  · exact nodup_small t ht r
  · have h80 : 80 ≤ t := Nat.le_of_not_lt ht
    cases r with
    | single => simp [calculateAttackIndices]
    | row =>
      simp only [calculateAttackIndices]
      refine List.Nodup.map ?_ (List.nodup_range _)
      intro a b hab
      simpa [getIndex] using hab
    | diagonal => rw [diag_far t h80]; simp
    | area4x4 => rw [area_far t h80]; simp

/-! ## Commands -/

/-- A command that sends an update was issued in turn, in phase `playing`, on a
document holding both boards, from a cell holding a unit. -/
theorem executeAction_update_inv {game : Game} {role : Role} {a : ActionType} {s t : Nat}
    {now : Int} {u : Updates} (h : executeAction game role a s t now = .update u) :
    game.turn = role ∧ game.phase = .playing ∧
      ∃ eb mb su, game.board (enemyBoardKey role) = some eb ∧
        game.board (myBoardKey role) = some mb ∧ cellAt mb s = some su := by
  unfold executeAction at h
  split at h
  · cases h
  · rename_i hturn
    split at h
    · cases h
    · rename_i hphase
      split at h
      · rename_i eb mb he hm
        split at h
        · cases h
        · rename_i su hs
          exact ⟨not_not.mp hturn, not_not.mp hphase, eb, mb, su, he, hm, hs⟩
      · cases h

/-- The two board keys of a role differ. -/
theorem enemyBoardKey_ne_myBoardKey (role : Role) : enemyBoardKey role ≠ myBoardKey role := by
  cases role <;> decide

/-- Reading a board key of `updates` after one was written. -/
theorem Updates.board_setBoard (u : Updates) (k k2 : BoardKey) (b : Board) :
    (u.setBoard k b).board k2 = if k2 = k then some b else u.board k2 := by
  cases k <;> cases k2 <;> rfl

/-- A board of the document after an update. -/
theorem applyUpdates_board (game : Game) (u : Updates) (k : BoardKey) :
    (applyUpdates game u).board k
      = match u.board k with
        | some b => some b
        | none => game.board k := by
  cases k <;> rfl

/-- The turn handoff writes no board. -/
theorem endTurn_board (game : Game) (role : Role) (now : Int) (u : Updates)
    (logs : List LogEntry) (k : BoardKey) :
    (endTurn game role now u logs).board k = u.board k := by
  unfold endTurn
  cases k <;> by_cases hr : role = .host <;> simp [hr, Updates.board]

/-- The turn handoff keeps `winner` and `phase` and writes `turn`,
`lastMoveTime` and `logs`. -/
theorem endTurn_winner_phase_turn (game : Game) (role : Role) (now : Int) (u : Updates)
    (logs : List LogEntry) :
    (endTurn game role now u logs).winner = u.winner ∧
      (endTurn game role now u logs).phase = u.phase ∧
      (endTurn game role now u logs).turn = some (if role = .host then .guest else .host) ∧
      (endTurn game role now u logs).lastMoveTime = some now ∧
      (endTurn game role now u logs).logs = some logs := by
  unfold endTurn
  by_cases hr : role = .host <;> simp [hr]

/-- The fields of the update sent by an attack. -/
theorem executeAction_attack_fields {game : Game} {role : Role} {s t : Nat} {now : Int}
    {u : Updates} {eb mb : Board} {su : GameUnit}
    (h : executeAction game role .ATTACK s t now = .update u)
    (he : game.board (enemyBoardKey role) = some eb)
    (hm : game.board (myBoardKey role) = some mb) (hs : cellAt mb s = some su) :
    u.board (enemyBoardKey role)
        = some (attackLoop role (UNIT_TYPES su.type) now (attackInit eb game.logs)
            (calculateAttackIndices s t (UNIT_TYPES su.type).range)).enemyBoard ∧
      u.board (myBoardKey role)
        = some (setCell mb s (some { su with revealedPosition := true })) ∧
      u.winner = (attackLoop role (UNIT_TYPES su.type) now (attackInit eb game.logs)
            (calculateAttackIndices s t (UNIT_TYPES su.type).range)).winner ∧
      u.phase = (attackLoop role (UNIT_TYPES su.type) now (attackInit eb game.logs)
            (calculateAttackIndices s t (UNIT_TYPES su.type).range)).phase ∧
      u.turn = some (if role = .host then .guest else .host) := by
  obtain ⟨hturn, hphase, -⟩ := executeAction_update_inv h
  unfold executeAction at h
  simp only [hturn, hphase, he, hm, hs, ne_eq, not_true_eq_false, if_false,
    Outcome.update.injEq] at h
  subst h
  have hne := enemyBoardKey_ne_myBoardKey role
  refine ⟨?_, ?_, ?_, ?_, (endTurn_winner_phase_turn _ _ _ _ _).2.2.1⟩
  · rw [endTurn_board, Updates.board_setBoard, if_neg hne, Updates.board_setBoard, if_pos rfl]
  · rw [endTurn_board, Updates.board_setBoard, if_pos rfl]
  · rw [(endTurn_winner_phase_turn _ _ _ _ _).1]
    cases role <;> rfl
  · rw [(endTurn_winner_phase_turn _ _ _ _ _).2.1]
    cases role <;> rfl

/-- An empty cell stays empty under any number of hits. -/
theorem hitCell_iterate_none (d : Int) (n : Nat) : (hitCell d)^[n] none = none := by
  induction n with
  | zero => rfl
  | succ n ih => rw [Function.iterate_succ_apply]; exact ih

/-- Once the winner is written, a later cell keeps it. -/
theorem attackStep_winner_stable (role : Role) (st : UnitStats) (now : Int) (acc : AttackAcc)
    (idx : Nat) (h : acc.winner = some role ∧ acc.phase = some .finished) :
    (attackStep role st now acc idx).winner = some role ∧
      (attackStep role st now acc idx).phase = some .finished := by
  unfold attackStep
  split
  · exact h
  · simp only
    split
    · split
      · exact ⟨rfl, rfl⟩
      · exact h
    · exact h

/-- Once the winner is written, the rest of the loop keeps it. -/
theorem attackLoop_winner_stable (role : Role) (st : UnitStats) (now : Int) (l : List Nat) :
    ∀ acc : AttackAcc, acc.winner = some role ∧ acc.phase = some .finished →
      (attackLoop role st now acc l).winner = some role ∧
        (attackLoop role st now acc l).phase = some .finished := by
  induction l with
  | nil => intro acc h; exact h
  | cons a l ih =>
    intro acc h
    exact ih _ (attackStep_winner_stable role st now acc a h)

/-- Visiting a cell whose Commander dies writes the winner and the phase. -/
theorem attackStep_kill_commander (role : Role) (st : UnitStats) (now : Int) (acc : AttackAcc)
    (idx : Nat) (c : GameUnit) (hc : cellAt acc.enemyBoard idx = some c)
    (hty : c.type = .COMMANDER) (hhp : c.hp - st.dmg ≤ 0) :
    (attackStep role st now acc idx).winner = some role ∧
      (attackStep role st now acc idx).phase = some .finished := by
  unfold attackStep
  simp [hc, hty, hhp]

/-- A loop over a cell whose Commander dies ends with the winner and the phase
written. -/
theorem attackLoop_kill_commander (role : Role) (st : UnitStats) (now : Int) (l : List Nat) :
    ∀ (acc : AttackAcc) (idx : Nat) (c : GameUnit), idx ∈ l →
      cellAt acc.enemyBoard idx = some c → c.type = .COMMANDER → c.hp - st.dmg ≤ 0 →
      (attackLoop role st now acc l).winner = some role ∧
        (attackLoop role st now acc l).phase = some .finished := by
  induction l with
  | nil => intro acc idx c hmem; cases hmem
  | cons a l ih =>
    intro acc idx c hmem hc hty hhp
    by_cases ha : idx = a
    · subst ha
      exact attackLoop_winner_stable role st now l _
        (attackStep_kill_commander role st now acc idx c hc hty hhp)
    · have hmem2 : idx ∈ l := by
        rcases List.mem_cons.mp hmem with e | e
        · exact absurd e ha
        · exact e
      refine ih (attackStep role st now acc a) idx c hmem2 ?_ hty hhp
      rw [attackStep_cell, if_neg ha]
      exact hc

/-- C5: a command issued by a side that does not hold `turn`, or while the
phase is not `playing`, sends no update, whatever the action and the cells:
the document (both boards, both clocks, `turn`, `lastMoveTime`, `logs`, `phase`,
`winner`) is exactly as before. -/
theorem executeAction_rejected_out_of_turn (game : Game) (role : Role) (actionType : ActionType)
    (sourceIdx targetIdx : Nat) (now : Int)
    (h : game.turn ≠ role ∨ game.phase ≠ .playing) :
    executeAction game role actionType sourceIdx targetIdx now = .noUpdate ∧
      afterAction game role actionType sourceIdx targetIdx now = game := by
  have hno : executeAction game role actionType sourceIdx targetIdx now = .noUpdate := by
    unfold executeAction
    rcases h with h | h
    · rw [if_pos h]
    · by_cases ht : game.turn ≠ role
      · rw [if_pos ht]
      · rw [if_neg ht, if_pos h]
  refine ⟨hno, ?_⟩
  unfold afterAction
  rw [hno]

/-- C5 on a sample match where the host is to move and the guest tries to
attack. -/
theorem executeAction_rejected_out_of_turn_witness :
    executeAction sampleMatch .guest .ATTACK 60 0 1000 = .noUpdate ∧
      afterAction sampleMatch .guest .ATTACK 60 0 1000 = sampleMatch :=
  executeAction_rejected_out_of_turn sampleMatch .guest .ATTACK 60 0 1000 (Or.inl (by decide))

/-- The document after a command that sent the update `u`. -/
theorem afterAction_of_update {game : Game} {role : Role} {a : ActionType} {s t : Nat}
    {now : Int} {u : Updates} (h : executeAction game role a s t now = .update u) :
    afterAction game role a s t now = applyUpdates game u := by
  unfold afterAction
  rw [h]

/-- C6: when an accepted attack reaches an enemy cell holding a Commander whose
hit points minus the attacker's damage are at most 0, the one update sent sets
`phase` to `finished` and `winner` to the attacking side, and the Commander's
cell of the enemy board is empty. -/
theorem attack_commander_kill_finishes (game : Game) (role : Role) (s t : Nat) (now : Int)
    (u : Updates) (eb mb : Board) (su c : GameUnit) (idx : Nat)
    (h : executeAction game role .ATTACK s t now = .update u)
    (he : game.board (enemyBoardKey role) = some eb)
    (hm : game.board (myBoardKey role) = some mb)
    (hs : cellAt mb s = some su)
    (hidx : idx ∈ calculateAttackIndices s t (UNIT_TYPES su.type).range)
    (hc : cellAt eb idx = some c) (hty : c.type = .COMMANDER)
    (hhp : c.hp - (UNIT_TYPES su.type).dmg ≤ 0) :
    u.phase = some .finished ∧ u.winner = some role ∧
      (afterAction game role .ATTACK s t now).phase = .finished ∧
      (afterAction game role .ATTACK s t now).winner = some role ∧
      ∃ b, u.board (enemyBoardKey role) = some b ∧
        (afterAction game role .ATTACK s t now).board (enemyBoardKey role) = some b ∧
        cellAt b idx = none := by
  obtain ⟨hb, -, hw, hp, -⟩ := executeAction_attack_fields h he hm hs
  have hk := attackLoop_kill_commander role (UNIT_TYPES su.type) now
    (calculateAttackIndices s t (UNIT_TYPES su.type).range) (attackInit eb game.logs) idx c
    hidx hc hty hhp
  rw [← hw, ← hp] at hk
  rw [afterAction_of_update h]
  refine ⟨hk.2, hk.1, ?_, ?_, _, hb, ?_, ?_⟩
  · simp [applyUpdates, hk.2]
  · simp [applyUpdates, hk.1]
  · rw [applyUpdates_board, hb]
  · rw [attackLoop_cell]
    obtain ⟨n, hn⟩ := Nat.exists_eq_succ_of_ne_zero
      (Nat.pos_iff_ne_zero.mp (List.count_pos_iff.mpr hidx))
    have h0 : cellAt (attackInit eb game.logs).enemyBoard idx = some c := hc
    rw [hn, Function.iterate_succ_apply, h0]
    have : hitCell (UNIT_TYPES su.type).dmg (some c) = none := by simp [hitCell, hhp]
    rw [this, hitCell_iterate_none]

/-- C6 on the sample match: the host's Commander (damage 100) attacks cell 60,
where the guest's Commander stands with 64 hit points. -/
theorem attack_commander_kill_finishes_witness :
    ∃ u, executeAction sampleMatch .host .ATTACK 0 60 1000 = .update u ∧
      u.phase = some .finished ∧ u.winner = some .host ∧
      (afterAction sampleMatch .host .ATTACK 0 60 1000).phase = .finished ∧
      (afterAction sampleMatch .host .ATTACK 0 60 1000).winner = some .host ∧
      ∃ b, u.board (enemyBoardKey .host) = some b ∧
        (afterAction sampleMatch .host .ATTACK 0 60 1000).board (enemyBoardKey .host) = some b ∧
        cellAt b 60 = none :=
  ⟨_, rfl, attack_commander_kill_finishes sampleMatch .host 0 60 1000 _ _ _
    (sampleUnit .COMMANDER 64 "h-cmd") (sampleUnit .COMMANDER 64 "g-cmd") 60
    rfl rfl rfl rfl (by decide) rfl rfl (by decide)⟩

/-- C7: after an accepted attack with affected cells `A` and damage `d`, the
enemy board sent in the update (and stored) is, cell by cell: a unit in `A`
with more than `d` hit points stays with `d` fewer and `wasHit` set; a unit in
`A` with at most `d` hit points is removed; an empty cell stays empty; a cell
outside `A` is unchanged.  A Sniper (10 damage, one cell) attacking a Commander
with 64 hit points leaves it with 54, writes no winner and no phase, and
passes the turn to the other side. -/
theorem attack_board_effect (game : Game) (role : Role) (s t : Nat) (now : Int)
    (u : Updates) (eb mb : Board) (su : GameUnit)
    (h : executeAction game role .ATTACK s t now = .update u)
    (he : game.board (enemyBoardKey role) = some eb)
    (hm : game.board (myBoardKey role) = some mb)
    (hs : cellAt mb s = some su) :
    ∃ b, u.board (enemyBoardKey role) = some b ∧
      (afterAction game role .ATTACK s t now).board (enemyBoardKey role) = some b ∧
      (∀ i v, i ∈ calculateAttackIndices s t (UNIT_TYPES su.type).range →
        cellAt eb i = some v → (UNIT_TYPES su.type).dmg < v.hp →
        cellAt b i = some { v with hp := v.hp - (UNIT_TYPES su.type).dmg, wasHit := true }) ∧
      (∀ i v, i ∈ calculateAttackIndices s t (UNIT_TYPES su.type).range →
        cellAt eb i = some v → v.hp ≤ (UNIT_TYPES su.type).dmg → cellAt b i = none) ∧
      (∀ i, cellAt eb i = none → cellAt b i = none) ∧
      (∀ i, i ∉ calculateAttackIndices s t (UNIT_TYPES su.type).range →
        cellAt b i = cellAt eb i) ∧
      (su.type = .SNIPER → ∀ v, cellAt eb t = some v → v.type = .COMMANDER → v.hp = 64 →
        cellAt b t = some { v with hp := 54, wasHit := true } ∧
        u.winner = none ∧ u.phase = none ∧
        (afterAction game role .ATTACK s t now).winner = game.winner ∧
        (afterAction game role .ATTACK s t now).phase = game.phase ∧
        u.turn = some (if role = .host then .guest else .host) ∧
        (afterAction game role .ATTACK s t now).turn ≠ role) := by
  obtain ⟨hb, -, hw, hp, htn⟩ := executeAction_attack_fields h he hm hs
  have hnd := attackIndices_nodup s t (UNIT_TYPES su.type).range
  have hcell : ∀ i, cellAt (attackLoop role (UNIT_TYPES su.type) now (attackInit eb game.logs)
      (calculateAttackIndices s t (UNIT_TYPES su.type).range)).enemyBoard i
      = (hitCell (UNIT_TYPES su.type).dmg)^[(calculateAttackIndices s t
          (UNIT_TYPES su.type).range).count i] (cellAt eb i) :=
    fun i => attackLoop_cell role (UNIT_TYPES su.type) now _ (attackInit eb game.logs) i
  have hin : ∀ i, i ∈ calculateAttackIndices s t (UNIT_TYPES su.type).range →
      cellAt (attackLoop role (UNIT_TYPES su.type) now (attackInit eb game.logs)
        (calculateAttackIndices s t (UNIT_TYPES su.type).range)).enemyBoard i
      = hitCell (UNIT_TYPES su.type).dmg (cellAt eb i) := by
    intro i hi
    rw [hcell, List.count_eq_one_of_mem hnd hi]
    rfl
  rw [afterAction_of_update h]
  refine ⟨_, hb, by rw [applyUpdates_board, hb], ?_, ?_, ?_, ?_, ?_⟩
  · intro i v hi hv hlt
    rw [hin i hi, hv]
    have : ¬ v.hp - (UNIT_TYPES su.type).dmg ≤ 0 := by omega
    simp [hitCell, this]
  · intro i v hi hv hle
    rw [hin i hi, hv]
    have : v.hp - (UNIT_TYPES su.type).dmg ≤ 0 := by omega
    simp [hitCell, this]
  · intro i hi
    rw [hcell, hi, hitCell_iterate_none]
  · intro i hi
    rw [hcell, List.count_eq_zero_of_not_mem hi]
    rfl
  · intro hsn v hv _ hhp
    have hl : calculateAttackIndices s t (UNIT_TYPES su.type).range = [t] := by
      rw [hsn]; rfl
    have hd : (UNIT_TYPES su.type).dmg = 10 := by rw [hsn]; rfl
    have hstep : attackLoop role (UNIT_TYPES su.type) now (attackInit eb game.logs) [t]
        = attackStep role (UNIT_TYPES su.type) now (attackInit eb game.logs) t := rfl
    have hv0 : cellAt (attackInit eb game.logs).enemyBoard t = some v := hv
    have hnot : ¬ v.hp - (UNIT_TYPES su.type).dmg ≤ 0 := by rw [hd, hhp]; decide
    rw [hl, hstep] at hw hp
    have hwn : u.winner = none := by
      rw [hw]; unfold attackStep; simp [hv0, hnot]; rfl
    have hpn : u.phase = none := by
      rw [hp]; unfold attackStep; simp [hv0, hnot]; rfl
    refine ⟨?_, hwn, hpn, ?_, ?_, htn, ?_⟩
    · rw [hin t (by rw [hl]; exact List.mem_singleton.mpr rfl), hv]
      simp [hitCell, hnot, hd, hhp]
    · simp [applyUpdates, hwn]
    · simp [applyUpdates, hpn]
    · simp only [applyUpdates, htn, Option.getD_some]
      cases role <;> decide

/-- C7 on the sample match: the host's Sniper at cell 1 attacks cell 60, where
the guest's Commander stands with 64 hit points. -/
theorem attack_board_effect_witness :
    ∃ u b, executeAction sampleMatch .host .ATTACK 1 60 1000 = .update u ∧
      u.board (enemyBoardKey .host) = some b ∧
      cellAt b 60 = some { sampleUnit .COMMANDER 64 "g-cmd" with hp := 54, wasHit := true } ∧
      u.winner = none ∧ u.turn = some .guest :=
  match attack_board_effect sampleMatch .host 1 60 1000 _ _ _ (sampleUnit .SNIPER 15 "h-snp")
      rfl rfl rfl rfl with
  | ⟨b, hb, _, _, _, _, _, hsn⟩ =>
    ⟨_, b, rfl, hb, (hsn rfl (sampleUnit .COMMANDER 64 "g-cmd") rfl rfl rfl).1,
      (hsn rfl (sampleUnit .COMMANDER 64 "g-cmd") rfl rfl rfl).2.1,
      (hsn rfl (sampleUnit .COMMANDER 64 "g-cmd") rfl rfl rfl).2.2.2.2.2.1⟩

/-- C8, as stated, fails: on the sample endgame the host's Tank (damage 2,
pattern `row`) attacks cell 56; the affected cells are 56, 57, ..., 63 in this
order; the guest's Commander at 56 (2 hit points) is destroyed and the host
wins, and the Tank at 57, later in the list, still loses 2 hit points and is
marked as hit. -/
theorem attack_short_circuit_counterexample :
    ∃ u b, executeAction sampleEndgame .host .ATTACK 3 56 1000 = .update u ∧
      calculateAttackIndices 3 56 (UNIT_TYPES .TANK).range = [56, 57, 58, 59, 60, 61, 62, 63] ∧
      sampleEndgame.guestBoard.map (fun g => cellAt g 56)
        = some (some (sampleUnit .COMMANDER 2 "g-cmd")) ∧
      sampleEndgame.guestBoard.map (fun g => cellAt g 57)
        = some (some (sampleUnit .TANK 32 "g-tnk")) ∧
      u.winner = some .host ∧ u.phase = some .finished ∧
      u.guestBoard = some b ∧ cellAt b 56 = none ∧
      cellAt b 57 = some { sampleUnit .TANK 32 "g-tnk" with hp := 30, wasHit := true } ∧
      cellAt b 57 ≠ some (sampleUnit .TANK 32 "g-tnk") :=
  ⟨_, _, rfl, rfl, rfl, rfl, rfl, rfl, rfl, rfl, rfl, by decide⟩

/-- C8, amended: an attack that destroys a Commander writes the winner and the
phase and goes on through the affected cells: an enemy unit in a cell that
comes after the Commander's cell in the list loses the attacker's damage like
any other, being removed when no hit points are left and otherwise kept with
`wasHit` set. -/
theorem attack_continues_after_commander (game : Game) (role : Role) (s t : Nat) (now : Int)
    (u : Updates) (eb mb : Board) (su c v : GameUnit) (k j : Nat) (pre post : List Nat)
    (h : executeAction game role .ATTACK s t now = .update u)
    (he : game.board (enemyBoardKey role) = some eb)
    (hm : game.board (myBoardKey role) = some mb)
    (hs : cellAt mb s = some su)
    (hA : calculateAttackIndices s t (UNIT_TYPES su.type).range = pre ++ k :: post)
    (hc : cellAt eb k = some c) (hty : c.type = .COMMANDER)
    (hhp : c.hp - (UNIT_TYPES su.type).dmg ≤ 0)
    (hj : j ∈ post) (hv : cellAt eb j = some v) :
    u.winner = some role ∧ u.phase = some .finished ∧
      ∃ b, u.board (enemyBoardKey role) = some b ∧
        (afterAction game role .ATTACK s t now).board (enemyBoardKey role) = some b ∧
        cellAt b k = none ∧
        cellAt b j = if v.hp - (UNIT_TYPES su.type).dmg ≤ 0 then none
          else some { v with hp := v.hp - (UNIT_TYPES su.type).dmg, wasHit := true } := by
  obtain ⟨hb, -, hw, hp, -⟩ := executeAction_attack_fields h he hm hs
  have hnd := attackIndices_nodup s t (UNIT_TYPES su.type).range
  have hk : k ∈ calculateAttackIndices s t (UNIT_TYPES su.type).range := by
    rw [hA]; simp
  have hjA : j ∈ calculateAttackIndices s t (UNIT_TYPES su.type).range := by
    rw [hA]; simp [hj]
  have hkill := attackLoop_kill_commander role (UNIT_TYPES su.type) now
    (calculateAttackIndices s t (UNIT_TYPES su.type).range) (attackInit eb game.logs) k c
    hk hc hty hhp
  rw [← hw, ← hp] at hkill
  have hin : ∀ i, i ∈ calculateAttackIndices s t (UNIT_TYPES su.type).range →
      cellAt (attackLoop role (UNIT_TYPES su.type) now (attackInit eb game.logs)
        (calculateAttackIndices s t (UNIT_TYPES su.type).range)).enemyBoard i
      = hitCell (UNIT_TYPES su.type).dmg (cellAt eb i) := by
    intro i hi
    rw [attackLoop_cell, List.count_eq_one_of_mem hnd hi]
    rfl
  rw [afterAction_of_update h]
  refine ⟨hkill.1, hkill.2, _, hb, by rw [applyUpdates_board, hb], ?_, ?_⟩
  · rw [hin k hk, hc]
    simp [hitCell, hhp]
  · rw [hin j hjA, hv]
    rfl

/-- C8, amended, on the sample endgame: the Tank at 57 comes after the
Commander at 56 in the row attacked by the host's Tank. -/
theorem attack_continues_after_commander_witness :
    ∃ u b, executeAction sampleEndgame .host .ATTACK 3 56 1000 = .update u ∧
      u.winner = some .host ∧ u.board (enemyBoardKey .host) = some b ∧
      cellAt b 57 = (if (32 : Int) - 2 ≤ 0 then none
        else some { sampleUnit .TANK 32 "g-tnk" with hp := 32 - 2, wasHit := true }) :=
  match attack_continues_after_commander sampleEndgame .host 3 56 1000 _ _ _
      (sampleUnit .TANK 32 "h-tnk") (sampleUnit .COMMANDER 2 "g-cmd")
      (sampleUnit .TANK 32 "g-tnk") 56 57 [] [57, 58, 59, 60, 61, 62, 63]
      rfl rfl rfl rfl rfl rfl rfl (by decide) (by decide) rfl with
  | ⟨hw, _, b, hb, _, _, hj⟩ => ⟨_, b, rfl, hw, hb, hj⟩

/-- Only the Infantry has the heal capability. -/
theorem canHeal_iff (k : UnitKey) : (UNIT_TYPES k).canHeal = true ↔ k = .INFANTRY := by
  cases k <;> decide

/-- The heal branch, once the command is in turn and the boards are read. -/
theorem executeAction_heal_eq {game : Game} {role : Role} {s t : Nat} {now : Int}
    {eb mb : Board} {su : GameUnit}
    (hturn : game.turn = role) (hphase : game.phase = .playing)
    (he : game.board (enemyBoardKey role) = some eb)
    (hm : game.board (myBoardKey role) = some mb) (hs : cellAt mb s = some su) :
    executeAction game role .HEAL s t now =
      if !(UNIT_TYPES su.type).canHeal then .noUpdate
      else
        match cellAt mb t with
        | none => .noUpdate
        | some targetUnit =>
          if targetUnit.hp < targetUnit.maxHp then
            .update (endTurn game role now
              (({} : Updates).setBoard (myBoardKey role)
                (setCell mb t (some { targetUnit with
                  hp := min (targetUnit.hp + 10) targetUnit.maxHp })))
              (game.logs ++ [{ text := roleLabel role ++ " realizó reparaciones de campo.",
                               type := "heal", time := now }]))
          else .noUpdate := by
  unfold executeAction
  simp only [hturn, hphase, he, hm, hs, ne_eq, not_true_eq_false, if_false]

/-- C9: after an accepted heal the target cell holds the same unit with
`min (hp + 10) maxHp` hit points, which is more than before and at most
`maxHp`; every other cell of the healer's board is unchanged, and the enemy
board is not written and stays as stored. -/
theorem heal_effect (game : Game) (role : Role) (s t : Nat) (now : Int) (u : Updates)
    (mb : Board)
    (h : executeAction game role .HEAL s t now = .update u)
    (hm : game.board (myBoardKey role) = some mb) :
    ∃ targetUnit b, cellAt mb t = some targetUnit ∧
      u.board (myBoardKey role) = some b ∧
      (afterAction game role .HEAL s t now).board (myBoardKey role) = some b ∧
      cellAt b t = some { targetUnit with hp := min (targetUnit.hp + 10) targetUnit.maxHp } ∧
      targetUnit.hp < min (targetUnit.hp + 10) targetUnit.maxHp ∧
      min (targetUnit.hp + 10) targetUnit.maxHp ≤ targetUnit.maxHp ∧
      (∀ j, j ≠ t → cellAt b j = cellAt mb j) ∧
      u.board (enemyBoardKey role) = none ∧
      (afterAction game role .HEAL s t now).board (enemyBoardKey role)
        = game.board (enemyBoardKey role) := by
  obtain ⟨hturn, hphase, eb, mb2, su, he, hm2, hs⟩ := executeAction_update_inv h
  rw [hm] at hm2
  cases hm2
  rw [afterAction_of_update h]
  rw [executeAction_heal_eq hturn hphase he hm hs] at h
  split at h
  · cases h
  · split at h
    · cases h
    · rename_i targetUnit ht
      split at h
      · rename_i hlt
        simp only [Outcome.update.injEq] at h
        subst h
        have hne := enemyBoardKey_ne_myBoardKey role
        have hmy : (endTurn game role now
            (({} : Updates).setBoard (myBoardKey role)
              (setCell mb t (some { targetUnit with
                hp := min (targetUnit.hp + 10) targetUnit.maxHp })))
            (game.logs ++ [{ text := roleLabel role ++ " realizó reparaciones de campo.",
                             type := "heal", time := now }])).board (myBoardKey role)
            = some (setCell mb t (some { targetUnit with
                hp := min (targetUnit.hp + 10) targetUnit.maxHp })) := by
          rw [endTurn_board, Updates.board_setBoard, if_pos rfl]
        have hen : (endTurn game role now
            (({} : Updates).setBoard (myBoardKey role)
              (setCell mb t (some { targetUnit with
                hp := min (targetUnit.hp + 10) targetUnit.maxHp })))
            (game.logs ++ [{ text := roleLabel role ++ " realizó reparaciones de campo.",
                             type := "heal", time := now }])).board (enemyBoardKey role)
            = none := by
          rw [endTurn_board, Updates.board_setBoard, if_neg hne]
          cases role <;> rfl
        refine ⟨targetUnit, _, ht, hmy, by rw [applyUpdates_board, hmy], ?_, ?_, ?_, ?_, hen,
          by rw [applyUpdates_board, hen]⟩
        · rw [cellAt_setCell, if_pos rfl]
        · exact lt_min (by omega) hlt
        · exact min_le_right _ _
        · intro j hj
          rw [cellAt_setCell, if_neg hj]
      · cases h

/-- C9 on the sample match: the host's Infantry at cell 2 heals the Jet at
cell 4, which has 12 of 20 hit points. -/
theorem heal_effect_witness :
    ∃ u targetUnit b, executeAction sampleMatch .host .HEAL 2 4 1000 = .update u ∧
      cellAt sampleHostBoard 4 = some targetUnit ∧
      u.board (myBoardKey .host) = some b ∧
      cellAt b 4 = some { targetUnit with hp := min (targetUnit.hp + 10) targetUnit.maxHp } ∧
      targetUnit.hp < min (targetUnit.hp + 10) targetUnit.maxHp :=
  match heal_effect sampleMatch .host 2 4 1000 _ sampleHostBoard rfl rfl with
  | ⟨targetUnit, b, ht, hb, _, hc, hlt, _⟩ => ⟨_, targetUnit, b, rfl, ht, hb, hc, hlt⟩

/-- C10: in phase `playing`, on the acting side's turn, with the enemy board
stored (as it is in every match that reached `playing`), a heal sends an update
exactly when the source cell of the healer's board holds a unit whose type can
heal (only the Infantry can) and the target cell of that board holds a unit
with fewer hit points than its maximum; in every other case no update is sent
and the document (boards, clocks, `turn`, `logs`) is unchanged. -/
theorem heal_accepted_iff (game : Game) (role : Role) (s t : Nat) (now : Int) (eb : Board)
    (hturn : game.turn = role) (hphase : game.phase = .playing)
    (he : game.board (enemyBoardKey role) = some eb) :
    ((∃ u, executeAction game role .HEAL s t now = .update u) ↔
        ∃ mb su targetUnit, game.board (myBoardKey role) = some mb ∧
          cellAt mb s = some su ∧ (UNIT_TYPES su.type).canHeal = true ∧
          cellAt mb t = some targetUnit ∧ targetUnit.hp < targetUnit.maxHp) ∧
      ((¬ ∃ mb su targetUnit, game.board (myBoardKey role) = some mb ∧
          cellAt mb s = some su ∧ (UNIT_TYPES su.type).canHeal = true ∧
          cellAt mb t = some targetUnit ∧ targetUnit.hp < targetUnit.maxHp) →
        (∀ u, executeAction game role .HEAL s t now ≠ .update u) ∧
          afterAction game role .HEAL s t now = game ∧
          (afterAction game role .HEAL s t now).turn = role) ∧
      (∀ k, (UNIT_TYPES k).canHeal = true ↔ k = .INFANTRY) := by
  have key : (∃ mb su targetUnit, game.board (myBoardKey role) = some mb ∧
        cellAt mb s = some su ∧ (UNIT_TYPES su.type).canHeal = true ∧
        cellAt mb t = some targetUnit ∧ targetUnit.hp < targetUnit.maxHp) ∨
      executeAction game role .HEAL s t now = .noUpdate ∨
      executeAction game role .HEAL s t now = .threw := by
    cases hm : game.board (myBoardKey role) with
    | none =>
      right; right
      unfold executeAction
      simp only [hturn, hphase, he, hm, ne_eq, not_true_eq_false, if_false]
    | some mb =>
      cases hs : cellAt mb s with
      | none =>
        right; left
        unfold executeAction
        simp only [hturn, hphase, he, hm, hs, ne_eq, not_true_eq_false, if_false]
      | some su =>
        rw [executeAction_heal_eq hturn hphase he hm hs]
        cases hcan : (UNIT_TYPES su.type).canHeal with
        | false => right; left; simp
        | true =>
          cases ht : cellAt mb t with
          | none => right; left; simp
          | some targetUnit =>
            by_cases hlt : targetUnit.hp < targetUnit.maxHp
            · left; exact ⟨mb, su, targetUnit, rfl, hs, hcan, ht, hlt⟩
            · right; left; simp [hlt]
  refine ⟨⟨?_, ?_⟩, ?_, canHeal_iff⟩
  · rintro ⟨u, hu⟩
    rcases key with hk | hk | hk
    · exact hk
    · rw [hk] at hu; cases hu
    · rw [hk] at hu; cases hu
  · rintro ⟨mb, su, targetUnit, hm, hs, hcan, ht, hlt⟩
    rw [executeAction_heal_eq hturn hphase he hm hs]
    simp [hcan, ht, hlt]
  · intro hno
    have hg : afterAction game role .HEAL s t now = game := by
      unfold afterAction
      rcases key with hk | hk | hk
      · exact absurd hk hno
      · rw [hk]
      · rw [hk]
    refine ⟨?_, hg, by rw [hg]; exact hturn⟩
    intro u hu
    rcases key with hk | hk | hk
    · exact absurd hk hno
    · rw [hk] at hu; cases hu
    · rw [hk] at hu; cases hu

/-- C10 on the sample match: the host's Infantry at cell 2 may heal the damaged
Jet at cell 4. -/
theorem heal_accepted_iff_witness :
    ∃ u, executeAction sampleMatch .host .HEAL 2 4 1000 = .update u :=
  (heal_accepted_iff sampleMatch .host 2 4 1000 _ rfl rfl rfl).1.mpr
    ⟨sampleHostBoard, sampleUnit .INFANTRY 10 "h-inf", sampleUnit .JET 12 "h-jet",
      rfl, rfl, rfl, rfl, by decide⟩

/-! ## Turn handoff, clocks and phases -/

/-- Writing a board leaves the other fields of `updates` as they are. -/
theorem Updates.setBoard_fields (u : Updates) (k : BoardKey) (b : Board) :
    (u.setBoard k b).turn = u.turn ∧ (u.setBoard k b).lastMoveTime = u.lastMoveTime ∧
      (u.setBoard k b).hostTime = u.hostTime ∧ (u.setBoard k b).guestTime = u.guestTime ∧
      (u.setBoard k b).logs = u.logs ∧ (u.setBoard k b).winner = u.winner ∧
      (u.setBoard k b).phase = u.phase := by
  cases k <;> exact ⟨rfl, rfl, rfl, rfl, rfl, rfl, rfl⟩

/-- The clock fields of the update after the turn handoff. -/
theorem endTurn_clocks (game : Game) (role : Role) (now : Int) (upd : Updates)
    (logs : List LogEntry) :
    (endTurn game role now upd logs).hostTime
        = (if role = .host then
            some (max 0 (game.hostTime - ((now - game.lastMoveTime.getD 0 : Int) : ℚ) / 1000))
           else upd.hostTime) ∧
      (endTurn game role now upd logs).guestTime
        = (if role = .host then upd.guestTime
           else some (max 0 (game.guestTime - ((now - game.lastMoveTime.getD 0 : Int) : ℚ) / 1000))) := by
  unfold endTurn
  by_cases hr : role = .host <;> simp [hr]

/-- The loop of an attack only adds entries to the log. -/
theorem attackStep_logs_extend (role : Role) (st : UnitStats) (now : Int) (acc : AttackAcc)
    (idx : Nat) : acc.newLogs <+: (attackStep role st now acc idx).newLogs := by
  unfold attackStep
  split
  · exact List.prefix_refl _
  · simp only
    split
    · split
      · simp only [List.append_assoc]
        exact List.prefix_append _ _
      · exact List.prefix_append _ _
    · exact List.prefix_refl _

/-- The whole loop of an attack only adds entries to the log. -/
theorem attackLoop_logs_extend (role : Role) (st : UnitStats) (now : Int) (l : List Nat) :
    ∀ acc : AttackAcc, acc.newLogs <+: (attackLoop role st now acc l).newLogs := by
  induction l with
  | nil => intro acc; exact List.prefix_refl _
  | cons a l ih =>
    intro acc
    exact (attackStep_logs_extend role st now acc a).trans (ih _)

/-- The loop of an attack writes no phase other than `finished`. -/
theorem attackStep_phase (role : Role) (st : UnitStats) (now : Int) (acc : AttackAcc)
    (idx : Nat) (h : acc.phase = none ∨ acc.phase = some .finished) :
    (attackStep role st now acc idx).phase = none ∨
      (attackStep role st now acc idx).phase = some .finished := by
  unfold attackStep
  split
  · exact h
  · simp only
    split
    · split
      · exact Or.inr rfl
      · exact h
    · exact h

/-- The whole loop of an attack writes no phase other than `finished`. -/
theorem attackLoop_phase (role : Role) (st : UnitStats) (now : Int) (l : List Nat) :
    ∀ acc : AttackAcc, (acc.phase = none ∨ acc.phase = some .finished) →
      (attackLoop role st now acc l).phase = none ∨
        (attackLoop role st now acc l).phase = some .finished := by
  induction l with
  | nil => intro acc h; exact h
  | cons a l ih =>
    intro acc h
    exact ih _ (attackStep_phase role st now acc a h)

/-- Every update sent by `executeAction` is closed by the turn handoff: it is
`endTurn` of an update that holds no turn, time or log field and no phase other
than `finished`, with a log that extends the stored one. -/
theorem executeAction_update_shape {game : Game} {role : Role} {a : ActionType} {s t : Nat}
    {now : Int} {u : Updates} (h : executeAction game role a s t now = .update u) :
    ∃ upd logs, u = endTurn game role now upd logs ∧
      upd.hostTime = none ∧ upd.guestTime = none ∧
      (upd.phase = none ∨ upd.phase = some .finished) ∧ game.logs <+: logs := by
  obtain ⟨hturn, hphase, eb, mb, su, he, hm, hs⟩ := executeAction_update_inv h
  unfold executeAction at h
  simp only [hturn, hphase, he, hm, hs, ne_eq, not_true_eq_false, if_false] at h
  cases a with
  | MOVE =>
    simp only at h
    split at h
    · cases h
    · simp only [Outcome.update.injEq] at h
      refine ⟨_, _, h.symm, ?_, ?_, ?_, List.prefix_append _ _⟩
      · rw [(Updates.setBoard_fields _ _ _).2.2.1]
      · rw [(Updates.setBoard_fields _ _ _).2.2.2.1]
      · left; rw [(Updates.setBoard_fields _ _ _).2.2.2.2.2.2]
  | ATTACK =>
    simp only [Outcome.update.injEq] at h
    refine ⟨_, _, h.symm, ?_, ?_, ?_, ?_⟩
    · rw [(Updates.setBoard_fields _ _ _).2.2.1, (Updates.setBoard_fields _ _ _).2.2.1]
    · rw [(Updates.setBoard_fields _ _ _).2.2.2.1, (Updates.setBoard_fields _ _ _).2.2.2.1]
    · rw [(Updates.setBoard_fields _ _ _).2.2.2.2.2.2, (Updates.setBoard_fields _ _ _).2.2.2.2.2.2]
      exact attackLoop_phase role _ now _ _ (Or.inl rfl)
    · have hp := attackLoop_logs_extend role (UNIT_TYPES su.type) now
        (calculateAttackIndices s t (UNIT_TYPES su.type).range) (attackInit eb game.logs)
      split
      · exact hp
      · exact hp.trans (List.prefix_append _ _)
  | HEAL =>
    simp only at h
    split at h
    · cases h
    · split at h
      · cases h
      · split at h
        · simp only [Outcome.update.injEq] at h
          refine ⟨_, _, h.symm, ?_, ?_, ?_, List.prefix_append _ _⟩
          · rw [(Updates.setBoard_fields _ _ _).2.2.1]
          · rw [(Updates.setBoard_fields _ _ _).2.2.2.1]
          · left; rw [(Updates.setBoard_fields _ _ _).2.2.2.2.2.2]
        · cases h

/-- The clocks of the document after an update of `executeAction`. -/
theorem executeAction_clocks {game : Game} {role : Role} {a : ActionType} {s t : Nat}
    {now : Int} {u : Updates} (h : executeAction game role a s t now = .update u) :
    (applyUpdates game u).clock role
        = max 0 (game.clock role - ((now - game.lastMoveTime.getD 0 : Int) : ℚ) / 1000) ∧
      (applyUpdates game u).otherClock role = game.otherClock role := by
  obtain ⟨upd, logs, hu, hh, hg, -, -⟩ := executeAction_update_shape h
  have hc := endTurn_clocks game role now upd logs
  rw [← hu, hh, hg] at hc
  unfold Game.clock Game.otherClock
  by_cases hr : role = .host
  · simp only [hr, if_true] at hc ⊢
    simp [applyUpdates, hc.1, hc.2]
  · simp only [hr, if_false] at hc ⊢
    simp [applyUpdates, hc.1, hc.2]

/-- C13: after every accepted move, attack or heal, whatever the current time,
`lastMoveTime` and the remaining time are, the clock of the acting side is at
least 0. -/
theorem clock_nonneg_after_action (game : Game) (role : Role) (actionType : ActionType)
    (sourceIdx targetIdx : Nat) (now : Int) (u : Updates)
    (h : executeAction game role actionType sourceIdx targetIdx now = .update u) :
    0 ≤ (applyUpdates game u).clock role ∧
      0 ≤ (afterAction game role actionType sourceIdx targetIdx now).clock role := by
  rw [afterAction_of_update h, (executeAction_clocks h).1]
  exact ⟨le_max_left _ _, le_max_left _ _⟩

/-- C13 on the sample match: the host moves its Commander long after the
budget of 600 seconds has run out. -/
theorem clock_nonneg_after_action_witness :
    ∃ u, executeAction sampleMatch .host .MOVE 0 10 900000000 = .update u ∧
      0 ≤ (applyUpdates sampleMatch u).clock .host :=
  ⟨_, rfl, (clock_nonneg_after_action sampleMatch .host .MOVE 0 10 900000000 _ rfl).1⟩

/-- C14, as stated, fails: on the sample match with `lastMoveTime = 5000` the
host moves at time 1000, four seconds before the recorded handoff, and its
clock goes from 600 to 604. -/
theorem clock_monotone_counterexample :
    ∃ u, executeAction { sampleMatch with lastMoveTime := some 5000 } .host .MOVE 0 10 1000
          = .update u ∧
      0 ≤ Game.clock { sampleMatch with lastMoveTime := some 5000 } .host ∧
      Game.clock { sampleMatch with lastMoveTime := some 5000 } .host = 600 ∧
      (applyUpdates { sampleMatch with lastMoveTime := some 5000 } u).clock .host = 604 ∧
      ¬ (applyUpdates { sampleMatch with lastMoveTime := some 5000 } u).clock .host
          ≤ Game.clock { sampleMatch with lastMoveTime := some 5000 } .host := by
  refine ⟨_, rfl, ?_, ?_, ?_, ?_⟩
  · norm_num [Game.clock, sampleMatch, sampleGame]
  · norm_num [Game.clock, sampleMatch, sampleGame]
  · norm_num [Game.clock, applyUpdates, endTurn, sampleMatch, sampleGame]
  · norm_num [Game.clock, applyUpdates, endTurn, sampleMatch, sampleGame]

/-- C14, amended: after an accepted move, attack or heal on a match whose
acting clock is at least 0, issued at a time not earlier than `lastMoveTime`
(a missing `lastMoveTime` counting as 0), the clock of the acting side is at
most its value before. -/
theorem clock_monotone_after_action (game : Game) (role : Role) (actionType : ActionType)
    (sourceIdx targetIdx : Nat) (now : Int) (u : Updates)
    (h : executeAction game role actionType sourceIdx targetIdx now = .update u)
    (hclock : 0 ≤ game.clock role) (hnow : game.lastMoveTime.getD 0 ≤ now) :
    (applyUpdates game u).clock role ≤ game.clock role ∧
      (afterAction game role actionType sourceIdx targetIdx now).clock role
        ≤ game.clock role := by
  rw [afterAction_of_update h, (executeAction_clocks h).1]
  have hts : (0 : ℚ) ≤ ((now - game.lastMoveTime.getD 0 : Int) : ℚ) / 1000 := by
    apply div_nonneg
    · exact_mod_cast sub_nonneg.mpr hnow
    · norm_num
  have : max 0 (game.clock role - ((now - game.lastMoveTime.getD 0 : Int) : ℚ) / 1000)
      ≤ game.clock role := max_le hclock (by linarith)
  exact ⟨this, this⟩

/-- C14, amended, on the sample match: the host moves one second after the
clocks were started. -/
theorem clock_monotone_after_action_witness :
    ∃ u, executeAction sampleMatch .host .MOVE 0 10 1000 = .update u ∧
      (applyUpdates sampleMatch u).clock .host ≤ sampleMatch.clock .host :=
  ⟨_, rfl, (clock_monotone_after_action sampleMatch .host .MOVE 0 10 1000 _ rfl
    (by simp [Game.clock, sampleMatch, sampleGame])
    (by simp [sampleMatch, sampleGame])).1⟩

/-- C19: every accepted move, attack or heal hands the turn over: the new
`turn` is the other side (the guest after the host, the host otherwise),
`lastMoveTime` is the time of the action, the clock of the acting side is
`max 0 (clock - (now - lastMoveTime) / 1000)` (a missing `lastMoveTime` counting
as 0), and the other clock is unchanged. -/
theorem action_hands_turn_over (game : Game) (role : Role) (actionType : ActionType)
    (sourceIdx targetIdx : Nat) (now : Int) (u : Updates)
    (h : executeAction game role actionType sourceIdx targetIdx now = .update u) :
    u.turn = some (if role = .host then .guest else .host) ∧
      (afterAction game role actionType sourceIdx targetIdx now).turn
        = (if role = .host then .guest else .host) ∧
      (afterAction game role actionType sourceIdx targetIdx now).turn ≠ role ∧
      (afterAction game role actionType sourceIdx targetIdx now).turn ≠ game.turn ∧
      (afterAction game role actionType sourceIdx targetIdx now).lastMoveTime = some now ∧
      (afterAction game role actionType sourceIdx targetIdx now).clock role
        = max 0 (game.clock role - ((now - game.lastMoveTime.getD 0 : Int) : ℚ) / 1000) ∧
      (afterAction game role actionType sourceIdx targetIdx now).otherClock role
        = game.otherClock role := by
  obtain ⟨hturn, -, -⟩ := executeAction_update_inv h
  obtain ⟨upd, logs, hu, -, -, -, -⟩ := executeAction_update_shape h
  have hf := endTurn_winner_phase_turn game role now upd logs
  rw [← hu] at hf
  have hc := executeAction_clocks h
  rw [afterAction_of_update h]
  have htn : (applyUpdates game u).turn = (if role = .host then .guest else .host) := by
    simp [applyUpdates, hf.2.2.1]
  refine ⟨hf.2.2.1, htn, ?_, ?_, ?_, hc.1, hc.2⟩
  · rw [htn]; cases role <;> decide
  · rw [htn, hturn]; cases role <;> decide
  · simp [applyUpdates, hf.2.2.2.1]

/-- C19 on the sample match: the host's Sniper attacks at time 1000. -/
theorem action_hands_turn_over_witness :
    ∃ u, executeAction sampleMatch .host .ATTACK 1 60 1000 = .update u ∧
      u.turn = some .guest ∧
      (afterAction sampleMatch .host .ATTACK 1 60 1000).lastMoveTime = some 1000 :=
  ⟨_, rfl, (action_hands_turn_over sampleMatch .host .ATTACK 1 60 1000 _ rfl).1,
    (action_hands_turn_over sampleMatch .host .ATTACK 1 60 1000 _ rfl).2.2.2.2.1⟩

/-! ## Surrender and setup -/

/-- C18: on a match whose phase is not `finished`, whatever `turn` is,
`handleSurrender` by the host sets the phase to `finished` with the guest as
winner, and by the guest with the host as winner; both boards, both clocks and
`turn` are unchanged; on a `finished` match it sends nothing and the document
is unchanged. -/
theorem handleSurrender_spec (game : Game) (role : Role) (now : Int) :
    (game.phase ≠ .finished →
        (afterSurrender game role now).phase = .finished ∧
        (afterSurrender game role now).winner
          = some (if role = .host then .guest else .host) ∧
        (role = .host → (afterSurrender game role now).winner = some .guest) ∧
        (role = .guest → (afterSurrender game role now).winner = some .host) ∧
        (afterSurrender game role now).hostBoard = game.hostBoard ∧
        (afterSurrender game role now).guestBoard = game.guestBoard ∧
        (afterSurrender game role now).hostTime = game.hostTime ∧
        (afterSurrender game role now).guestTime = game.guestTime ∧
        (afterSurrender game role now).turn = game.turn) ∧
      (game.phase = .finished →
        handleSurrender game role now = .noUpdate ∧ afterSurrender game role now = game) := by
  constructor
  · intro hp
    have hu : handleSurrender game role now = .update
        { phase := some .finished
          winner := some (if role = .host then .guest else .host)
          logs := some (game.logs ++
            [{ text := roleLabel role ++ " se ha rendido.", type := "end", time := now }]) } := by
      unfold handleSurrender
      rw [if_neg hp]
    unfold afterSurrender
    rw [hu]
    refine ⟨rfl, rfl, ?_, ?_, rfl, rfl, rfl, rfl, rfl⟩
    · intro hr; subst hr; rfl
    · intro hr; subst hr; rfl
  · intro hp
    have hu : handleSurrender game role now = .noUpdate := by
      unfold handleSurrender
      rw [if_pos hp]
    refine ⟨hu, ?_⟩
    unfold afterSurrender
    rw [hu]

/-- C18 on the sample match, where it is the host's turn and the guest
surrenders. -/
theorem handleSurrender_spec_witness :
    (afterSurrender sampleMatch .guest 1000).phase = .finished ∧
      (afterSurrender sampleMatch .guest 1000).winner = some .host ∧
      (afterSurrender sampleMatch .guest 1000).turn = .host :=
  ⟨((handleSurrender_spec sampleMatch .guest 1000).1 (by decide)).1,
    ((handleSurrender_spec sampleMatch .guest 1000).1 (by decide)).2.2.2.1 rfl,
    ((handleSurrender_spec sampleMatch .guest 1000).1 (by decide)).2.2.2.2.2.2.2.2⟩

/-- The updates of `submitSetup` for a board with fewer occupied cells than the
roster has units. -/
theorem submitSetup_short {game : Game} {role : Role} {b : Board} {now : Int}
    (h : placedCount b < INITIAL_ROSTER.length) : submitSetup game role b now = [] := by
  unfold submitSetup
  rw [if_pos h]

/-- The document after `submitSetup` for a board with at least as many
occupied cells as the roster has units: the board is stored and the side is
ready; the other fields are as before unless the other side was ready, in which
case play starts. -/
theorem afterSetup_full {game : Game} {role : Role} {b : Board} {now : Int}
    (h : INITIAL_ROSTER.length ≤ placedCount b) :
    (afterSetup game role b now).board (myBoardKey role) = some b ∧
      (afterSetup game role b now).ready role = true ∧
      (afterSetup game role b now).board (enemyBoardKey role)
        = game.board (enemyBoardKey role) ∧
      (afterSetup game role b now).turn = game.turn ∧
      (afterSetup game role b now).hostTime = game.hostTime ∧
      (afterSetup game role b now).guestTime = game.guestTime ∧
      (afterSetup game role b now).winner = game.winner ∧
      (afterSetup game role b now).hostReady = (game.hostReady || decide (role = .host)) ∧
      (afterSetup game role b now).guestReady = (game.guestReady || decide (role ≠ .host)) ∧
      ((role = .host ∧ game.guestReady = true) ∨ (role = .guest ∧ game.hostReady = true) →
        (afterSetup game role b now).phase = .playing ∧
        (afterSetup game role b now).lastMoveTime = some now ∧
        (afterSetup game role b now).logs =
          [{ text := "¡La batalla ha comenzado! Fase de despliegue finalizada.",
             type := "sys", time := now }]) ∧
      (¬ ((role = .host ∧ game.guestReady = true) ∨ (role = .guest ∧ game.hostReady = true)) →
        (afterSetup game role b now).phase = game.phase ∧
        (afterSetup game role b now).lastMoveTime = game.lastMoveTime ∧
        (afterSetup game role b now).logs = game.logs) := by
  have hn : ¬ placedCount b < INITIAL_ROSTER.length := Nat.not_lt.mpr h
  unfold afterSetup submitSetup
  rw [if_neg hn]
  by_cases hc : (role = .host ∧ game.guestReady = true) ∨ (role = .guest ∧ game.hostReady = true)
  · simp only [hc, if_true, List.foldl_cons, List.foldl_nil]
    cases role <;>
      simp [applyUpdates, Updates.setBoard, Updates.setReady, myBoardKey, enemyBoardKey,
        Game.board, Game.ready]
  · simp only [hc, if_false, List.foldl_cons, List.foldl_nil]
    cases role <;>
      simp [applyUpdates, Updates.setBoard, Updates.setReady, myBoardKey, enemyBoardKey,
        Game.board, Game.ready]

/-- C11, as stated, fails: a board with eleven occupied cells, one more than
the roster has units, is accepted: it is stored and the host is marked ready. -/
theorem submitSetup_count_counterexample :
    placedCount sampleCrowdedBoard = 11 ∧
      placedCount sampleCrowdedBoard ≠ INITIAL_ROSTER.length ∧
      (submitSetup sampleLobby .host sampleCrowdedBoard 1000).length = 1 ∧
      (afterSetup sampleLobby .host sampleCrowdedBoard 1000).hostBoard
        = some sampleCrowdedBoard ∧
      (afterSetup sampleLobby .host sampleCrowdedBoard 1000).hostReady = true ∧
      sampleLobby.hostBoard = none ∧ sampleLobby.hostReady = false :=
  ⟨by decide, by decide, rfl, rfl, rfl, rfl, rfl⟩

/-- C11, amended: `submitSetup` rejects every proposed board with fewer than 10
occupied cells: it sends no update, so the board is not stored, the ready flag
is not set and the phase does not change; a board with 10 or more occupied
cells is stored and the side's ready flag is set. -/
theorem submitSetup_count_check (game : Game) (role : Role) (setupBoard : Board) (now : Int) :
    INITIAL_ROSTER.length = 10 ∧
      (placedCount setupBoard < 10 →
        submitSetup game role setupBoard now = [] ∧
        afterSetup game role setupBoard now = game) ∧
      (10 ≤ placedCount setupBoard →
        (afterSetup game role setupBoard now).board (myBoardKey role) = some setupBoard ∧
        (afterSetup game role setupBoard now).ready role = true) := by
  refine ⟨rfl, ?_, ?_⟩
  · intro h
    have hs : submitSetup game role setupBoard now = [] := submitSetup_short h
    refine ⟨hs, ?_⟩
    unfold afterSetup
    rw [hs]
    rfl
  · intro h
    exact ⟨(afterSetup_full h).1, (afterSetup_full h).2.1⟩

/-- C11, amended, on the sample lobby: an empty board is rejected and the
roster board is accepted. -/
theorem submitSetup_count_check_witness :
    afterSetup sampleLobby .host (List.replicate 64 none) 1000 = sampleLobby ∧
      (afterSetup sampleLobby .host (sampleRosterBoard 0) 1000).ready .host = true :=
  ⟨((submitSetup_count_check sampleLobby .host (List.replicate 64 none) 1000).2.1
      (by decide)).2,
    ((submitSetup_count_check sampleLobby .host (sampleRosterBoard 0) 1000).2.2
      (by decide)).2⟩

/-- C12, as stated, fails: the host submits the roster in the cells `40..49`,
which lie in the guest's rows and outside the cells `0..23` of the host, and the
board is stored and the host marked ready. -/
theorem submitSetup_zone_counterexample :
    (cellAt (sampleRosterBoard 40) 40).isSome = true ∧
      40 ∉ validIndices .host ∧
      (afterSetup sampleLobby .host (sampleRosterBoard 40) 1000).hostBoard
        = some (sampleRosterBoard 40) ∧
      (afterSetup sampleLobby .host (sampleRosterBoard 40) 1000).hostReady = true ∧
      sampleLobby.hostBoard = none ∧ sampleLobby.hostReady = false :=
  ⟨by decide, by decide, rfl, rfl, rfl, rfl⟩

/-- C12, amended: `submitSetup` does not look at where the units stand: a
proposed board with at least 10 occupied cells is stored and the side's ready
flag is set also when an occupied cell lies outside the cells of the
submitting side (host `0..23`, guest `40..63`). -/
theorem submitSetup_ignores_zone (game : Game) (role : Role) (setupBoard : Board) (now : Int)
    (i : Nat) (hcount : 10 ≤ placedCount setupBoard)
    (_hcell : (cellAt setupBoard i).isSome = true) (_hzone : i ∉ validIndices role) :
    (∀ j, j ∈ validIndices .host ↔ j < 24) ∧
      (∀ j, j ∈ validIndices .guest ↔ 40 ≤ j ∧ j ≤ 63) ∧
      (submitSetup game role setupBoard now).length ≠ 0 ∧
      (afterSetup game role setupBoard now).board (myBoardKey role) = some setupBoard ∧
      (afterSetup game role setupBoard now).ready role = true := by
  have hfull : INITIAL_ROSTER.length ≤ placedCount setupBoard := hcount
  refine ⟨?_, ?_, ?_, (afterSetup_full hfull).1, (afterSetup_full hfull).2.1⟩
  · intro j
    simp [validIndices]
  · intro j
    have hv : validIndices .guest = (List.range 24).map (fun i => 63 - i) := rfl
    rw [hv]
    simp only [List.mem_map, List.mem_range]
    constructor
    · rintro ⟨a, ha, rfl⟩
      simp at ha ⊢
      omega
    · intro hj
      exact ⟨63 - j, by omega, by omega⟩
  · unfold submitSetup
    rw [if_neg (Nat.not_lt.mpr hfull)]
    split <;> simp

/-- C12, amended, on the sample lobby: the guest submits the roster in the
cells `0..9`, the host's first rows. -/
theorem submitSetup_ignores_zone_witness :
    (afterSetup sampleLobby .guest (sampleRosterBoard 0) 1000).board (myBoardKey .guest)
        = some (sampleRosterBoard 0) ∧
      (afterSetup sampleLobby .guest (sampleRosterBoard 0) 1000).ready .guest = true :=
  (submitSetup_ignores_zone sampleLobby .guest (sampleRosterBoard 0) 1000 0
    (by decide) (by decide) (by decide)).2.2.2

/-- The document after `joinAsGuest`: only `guestId` and `status` change. -/
theorem afterJoin_fields (game : Game) (uid : String) :
    (afterJoin game uid).phase = game.phase ∧ (afterJoin game uid).logs = game.logs ∧
      (afterJoin game uid).turn = game.turn ∧ (afterJoin game uid).hostTime = game.hostTime ∧
      (afterJoin game uid).guestTime = game.guestTime ∧
      (afterJoin game uid).hostReady = game.hostReady ∧
      (afterJoin game uid).guestReady = game.guestReady ∧
      (afterJoin game uid).guestId = some uid ∧ (afterJoin game uid).status = .playing :=
  ⟨rfl, rfl, rfl, rfl, rfl, rfl, rfl, rfl, rfl⟩

/-- C16: the host creates a match with mode BLITZ, a guest joins, and both
sides submit a board with the ten units of the roster, the host first or the
guest first: the match is then in phase `playing` with `turn = host`, both
clocks at 600, both ready flags set and both submitted boards stored. -/
theorem setup_scenario (newGameName uid guestUid : String) (hostBoard guestBoard : Board)
    (t1 t2 : Int) (g0 : Game)
    (hcreate : createGame newGameName uid .BLITZ = some g0)
    (hhost : 10 ≤ placedCount hostBoard) (hguest : 10 ≤ placedCount guestBoard) :
    ∀ g, (g = afterSetup (afterSetup (afterJoin g0 guestUid) .host hostBoard t1)
                .guest guestBoard t2 ∨
          g = afterSetup (afterSetup (afterJoin g0 guestUid) .guest guestBoard t1)
                .host hostBoard t2) →
      g.phase = .playing ∧ g.turn = .host ∧ g.hostTime = 600 ∧ g.guestTime = 600 ∧
        g.hostReady = true ∧ g.guestReady = true ∧
        g.hostBoard = some hostBoard ∧ g.guestBoard = some guestBoard := by
  have hg0 : g0.turn = .host ∧ g0.hostTime = 600 ∧ g0.guestTime = 600 ∧
      g0.hostReady = false ∧ g0.guestReady = false := by
    unfold createGame at hcreate
    split at hcreate
    · cases hcreate
    · cases hcreate
      exact ⟨rfl, rfl, rfl, rfl, rfl⟩
  have hj := afterJoin_fields g0 guestUid
  have hh : INITIAL_ROSTER.length ≤ placedCount hostBoard := hhost
  have hg : INITIAL_ROSTER.length ≤ placedCount guestBoard := hguest
  intro g hgo
  rcases hgo with rfl | rfl
  · have h1 := @afterSetup_full (afterJoin g0 guestUid) .host hostBoard t1 hh
    have h2 := @afterSetup_full (afterSetup (afterJoin g0 guestUid) .host hostBoard t1)
      .guest guestBoard t2 hg
    simp only [myBoardKey, enemyBoardKey, Game.board, Game.ready, hj.2.2.1, hj.2.2.2.1,
      hj.2.2.2.2.1, hj.2.2.2.2.2.1, hj.2.2.2.2.2.2.1, hg0.1, hg0.2.1, hg0.2.2.1, hg0.2.2.2.1,
      hg0.2.2.2.2] at h1
    simp at h1
    obtain ⟨a1, a2, -, a4, a5, a6, -, a8, a9, -⟩ := h1
    simp only [myBoardKey, enemyBoardKey, Game.board, Game.ready, a1, a4, a5, a6, a8, a9] at h2
    simp at h2
    obtain ⟨b1, b2, b3, b4, b5, b6, -, b8, -, b10, -⟩ := h2
    exact ⟨b10, b4, b5, b6, b8, b2, b3, b1⟩
  · have h1 := @afterSetup_full (afterJoin g0 guestUid) .guest guestBoard t1 hg
    have h2 := @afterSetup_full (afterSetup (afterJoin g0 guestUid) .guest guestBoard t1)
      .host hostBoard t2 hh
    simp only [myBoardKey, enemyBoardKey, Game.board, Game.ready, hj.2.2.1, hj.2.2.2.1,
      hj.2.2.2.2.1, hj.2.2.2.2.2.1, hj.2.2.2.2.2.2.1, hg0.1, hg0.2.1, hg0.2.2.1, hg0.2.2.2.1,
      hg0.2.2.2.2] at h1
    simp at h1
    obtain ⟨a1, a2, -, a4, a5, a6, -, a8, a9, -⟩ := h1
    simp only [myBoardKey, enemyBoardKey, Game.board, Game.ready, a1, a4, a5, a6, a8, a9] at h2
    simp at h2
    obtain ⟨b1, b2, b3, b4, b5, b6, -, -, b9, b10, -⟩ := h2
    exact ⟨b10, b4, b5, b6, b2, b9, b1, b3⟩

/-- C16 for a match named "Alpha": the host submits the roster in the cells
`0..9`, then the guest in the cells `40..49`. -/
theorem setup_scenario_witness :
    ∃ g0, createGame "Alpha" "host-1" .BLITZ = some g0 ∧
      (afterSetup (afterSetup (afterJoin g0 "guest-1") .host (sampleRosterBoard 0) 1000)
          .guest (sampleRosterBoard 40) 2000).phase = .playing ∧
      (afterSetup (afterSetup (afterJoin g0 "guest-1") .host (sampleRosterBoard 0) 1000)
          .guest (sampleRosterBoard 40) 2000).hostTime = 600 :=
  ⟨_, rfl,
    (setup_scenario "Alpha" "host-1" "guest-1" (sampleRosterBoard 0) (sampleRosterBoard 40)
      1000 2000 _ rfl (by decide) (by decide) _ (Or.inl rfl)).1,
    (setup_scenario "Alpha" "host-1" "guest-1" (sampleRosterBoard 0) (sampleRosterBoard 40)
      1000 2000 _ rfl (by decide) (by decide) _ (Or.inl rfl)).2.2.1⟩

/-! ## Phases and the log -/

/-- The phase after `executeAction`: as before, or `finished` after `playing`. -/
theorem afterAction_phase (game : Game) (role : Role) (a : ActionType) (s t : Nat) (now : Int) :
    (afterAction game role a s t now).phase = game.phase ∨
      (game.phase = .playing ∧ (afterAction game role a s t now).phase = .finished) := by
  cases h : executeAction game role a s t now with
  | noUpdate => left; unfold afterAction; rw [h]
  | threw => left; unfold afterAction; rw [h]
  | update u =>
    obtain ⟨-, hphase, -⟩ := executeAction_update_inv h
    obtain ⟨upd, logs, hu, -, -, hp, -⟩ := executeAction_update_shape h
    have hf := (endTurn_winner_phase_turn game role now upd logs).2.1
    rw [← hu] at hf
    rw [afterAction_of_update h]
    rcases hp with hp | hp
    · left; simp [applyUpdates, hf, hp]
    · right; exact ⟨hphase, by simp [applyUpdates, hf, hp]⟩

/-- The log after `executeAction` extends the log before. -/
theorem afterAction_logs_extend (game : Game) (role : Role) (a : ActionType) (s t : Nat)
    (now : Int) : game.logs <+: (afterAction game role a s t now).logs := by
  cases h : executeAction game role a s t now with
  | noUpdate => unfold afterAction; rw [h]
  | threw => unfold afterAction; rw [h]
  | update u =>
    obtain ⟨upd, logs, hu, -, -, -, hl⟩ := executeAction_update_shape h
    have hf := (endTurn_winner_phase_turn game role now upd logs).2.2.2.2
    rw [← hu] at hf
    rw [afterAction_of_update h]
    simpa [applyUpdates, hf] using hl

/-- The log after `handleSurrender` extends the log before. -/
theorem afterSurrender_logs_extend (game : Game) (role : Role) (now : Int) :
    game.logs <+: (afterSurrender game role now).logs := by
  unfold afterSurrender handleSurrender
  split
  · rename_i u hu
    split at hu
    · cases hu
    · cases hu
      exact List.prefix_append _ _
  · exact List.prefix_refl _

/-- The phase after `handleSurrender`: `finished`, and a `finished` match is
left as it is. -/
theorem afterSurrender_phase (game : Game) (role : Role) (now : Int) :
    (game.phase ≠ .finished → (afterSurrender game role now).phase = .finished) ∧
      (game.phase = .finished → afterSurrender game role now = game) := by
  unfold afterSurrender handleSurrender
  constructor
  · intro hp
    rw [if_neg hp]
    rfl
  · intro hp
    rw [if_pos hp]

/-- C15, as stated, fails: on the sample lobby, in phase `setup`, the host
surrenders and the phase becomes `finished`, which is neither `setup` nor its
successor `playing`. -/
theorem phase_order_counterexample :
    sampleLobby.phase = .setup ∧
      (runCommand sampleLobby 1000 (.surrender .host)).phase = .finished ∧
      ¬ ((runCommand sampleLobby 1000 (.surrender .host)).phase = sampleLobby.phase ∨
          (runCommand sampleLobby 1000 (.surrender .host)).phase.rank
            = sampleLobby.phase.rank + 1) :=
  ⟨rfl, rfl, by decide⟩

/-- C15, amended: `joinAsGuest` leaves the phase as it is; `executeAction`
leaves it as it is or moves `playing` to `finished`; `handleSurrender` moves
every phase other than `finished` straight to `finished` and leaves a
`finished` match unchanged; `submitSetup` on a match in phase `setup` leaves
the phase `setup` or moves it to `playing`.  So with `submitSetup` issued in
phase `setup` only, no command moves the phase backwards, and a `finished`
match stays `finished` under `joinAsGuest`, `handleSurrender` and
`executeAction`. -/
theorem phase_transitions (game : Game) (now : Int) :
    (∀ uid, (runCommand game now (.join uid)).phase = game.phase) ∧
      (∀ role a s t, (runCommand game now (.action role a s t)).phase = game.phase ∨
        (game.phase = .playing ∧ (runCommand game now (.action role a s t)).phase = .finished)) ∧
      (∀ role, game.phase ≠ .finished →
        (runCommand game now (.surrender role)).phase = .finished) ∧
      (∀ role, game.phase = .finished → runCommand game now (.surrender role) = game) ∧
      (∀ role b, game.phase = .setup →
        (runCommand game now (.setup role b)).phase = .setup ∨
          (runCommand game now (.setup role b)).phase = .playing) ∧
      (∀ cmd, (∀ role b, cmd = .setup role b → game.phase = .setup) →
        game.phase.rank ≤ (runCommand game now cmd).phase.rank) ∧
      (∀ cmd, game.phase = .finished → (∀ role b, cmd ≠ .setup role b) →
        (runCommand game now cmd).phase = .finished) := by
  have hjoin : ∀ uid, (runCommand game now (.join uid)).phase = game.phase := fun _ => rfl
  have hact : ∀ role a s t, (runCommand game now (.action role a s t)).phase = game.phase ∨
      (game.phase = .playing ∧ (runCommand game now (.action role a s t)).phase = .finished) :=
    fun role a s t => afterAction_phase game role a s t now
  have hsur : ∀ role, game.phase ≠ .finished →
      (runCommand game now (.surrender role)).phase = .finished :=
    fun role hp => (afterSurrender_phase game role now).1 hp
  have hfin : ∀ role, game.phase = .finished → runCommand game now (.surrender role) = game :=
    fun role hp => (afterSurrender_phase game role now).2 hp
  have hset : ∀ role b, game.phase = .setup →
      (runCommand game now (.setup role b)).phase = .setup ∨
        (runCommand game now (.setup role b)).phase = .playing := by
    intro role b hp
    show (afterSetup game role b now).phase = .setup ∨ (afterSetup game role b now).phase = .playing
    by_cases hc : placedCount b < INITIAL_ROSTER.length
    · left
      unfold afterSetup
      rw [submitSetup_short hc]
      exact hp
    · have hfull := @afterSetup_full game role b now (Nat.le_of_not_lt hc)
      by_cases hr : (role = .host ∧ game.guestReady = true) ∨
          (role = .guest ∧ game.hostReady = true)
      · right; exact (hfull.2.2.2.2.2.2.2.2.2.1 hr).1
      · left; rw [(hfull.2.2.2.2.2.2.2.2.2.2 hr).1]; exact hp
  refine ⟨hjoin, hact, hsur, hfin, hset, ?_, ?_⟩
  · intro cmd hcmd
    cases cmd with
    | join uid => rw [hjoin]
    | setup role b =>
      have hp := hcmd role b rfl
      rcases hset role b hp with h | h
      · rw [h, hp]
      · rw [h, hp]; decide
    | surrender role =>
      by_cases hp : game.phase = .finished
      · rw [hfin role hp]
      · rw [hsur role hp]
        cases game.phase <;> decide
    | action role a s t =>
      rcases hact role a s t with h | ⟨h1, h2⟩
      · rw [h]
      · rw [h2, h1]; decide
  · intro cmd hp hcmd
    cases cmd with
    | join uid => rw [hjoin]; exact hp
    | setup role b => exact absurd rfl (hcmd role b)
    | surrender role => rw [hfin role hp]; exact hp
    | action role a s t =>
      rcases hact role a s t with h | ⟨h1, -⟩
      · rw [h]; exact hp
      · rw [hp] at h1; cases h1

/-- C15, amended, on the sample match: the guest's surrender ends it. -/
theorem phase_transitions_witness :
    (runCommand sampleMatch 1000 (.surrender .guest)).phase = .finished ∧
      sampleMatch.phase.rank ≤ (runCommand sampleMatch 1000 (.surrender .guest)).phase.rank :=
  ⟨(phase_transitions sampleMatch 1000).2.2.1 .guest (by decide),
    (phase_transitions sampleMatch 1000).2.2.2.2.2.1 (.surrender .guest)
      (fun _ _ h => Command.noConfusion h)⟩

/-- C20 fails on the surrendered sample match: the match is `finished`, its
log holds the host's surrender, and the guest is ready; the host then submits
the roster, and the update that starts play replaces the log by the one start
entry, so the surrender entry is gone and the log before is not a prefix of the
log after. -/
theorem submitSetup_overwrites_log :
    sampleSurrendered.phase = .finished ∧ sampleSurrendered.guestReady = true ∧
      sampleSurrendered.logs
        = [{ text := "Anfitrión se ha rendido.", type := "end", time := 2000 }] ∧
      (runCommand sampleSurrendered 3000 (.setup .host (sampleRosterBoard 0))).logs
        = [{ text := "¡La batalla ha comenzado! Fase de despliegue finalizada.",
             type := "sys", time := 3000 }] ∧
      (runCommand sampleSurrendered 3000 (.setup .host (sampleRosterBoard 0))).phase
        = .playing ∧
      ¬ sampleSurrendered.logs <+:
          (runCommand sampleSurrendered 3000 (.setup .host (sampleRosterBoard 0))).logs := by
  refine ⟨rfl, rfl, by decide, rfl, rfl, ?_⟩
  decide

/-! ## Moves -/

/-- The number of occupied cells of a board with one more cell in front. -/
theorem placedCount_cons (c : Option GameUnit) (b : Board) :
    placedCount (c :: b) = (if c.isSome then 1 else 0) + placedCount b := by
  unfold placedCount
  cases c <;> simp [List.filter_cons, Nat.add_comm]

/-- A run of holes closed by one cell holds what that cell holds. -/
theorem placedCount_holes (n : Nat) (v : Option GameUnit) :
    placedCount (List.replicate n none ++ [v]) = if v.isSome then 1 else 0 := by
  induction n with
  | zero => cases v <;> rfl
  | succ n ih =>
    rw [List.replicate_succ, List.cons_append, placedCount_cons, ih]
    simp

/-- Writing into the empty array. -/
theorem setCell_nil (i : Nat) (v : Option GameUnit) :
    setCell [] i v = List.replicate i none ++ [v] := by
  simp [setCell]

/-- Writing the first cell. -/
theorem setCell_cons_zero (c : Option GameUnit) (b : Board) (v : Option GameUnit) :
    setCell (c :: b) 0 v = v :: b := by
  simp [setCell]

/-- Writing a later cell leaves the first one. -/
theorem setCell_cons_succ (c : Option GameUnit) (b : Board) (k : Nat) (v : Option GameUnit) :
    setCell (c :: b) (k + 1) v = c :: setCell b k v := by
  unfold setCell
  by_cases h : k < b.length
  · simp [h]
  · simp [h]

/-- Reading a later cell skips the first one. -/
theorem cellAt_cons_succ (c : Option GameUnit) (b : Board) (k : Nat) :
    cellAt (c :: b) (k + 1) = cellAt b k := by
  simp [cellAt]

/-- Writing a cell changes the number of occupied cells by what the cell held
and what it holds now. -/
theorem placedCount_setCell (b : Board) : ∀ (i : Nat) (v : Option GameUnit),
    placedCount (setCell b i v) + (if (cellAt b i).isSome then 1 else 0)
      = placedCount b + (if v.isSome then 1 else 0) := by
  induction b with
  | nil =>
    intro i v
    rw [setCell_nil, placedCount_holes]
    simp [cellAt, placedCount]
  | cons c b ih =>
    intro i v
    cases i with
    | zero =>
      rw [setCell_cons_zero, placedCount_cons, placedCount_cons]
      have : cellAt (c :: b) 0 = c := rfl
      rw [this]
      omega
    | succ k =>
      rw [setCell_cons_succ, placedCount_cons, placedCount_cons, cellAt_cons_succ]
      have := ih k v
      omega

/-- The move branch, once the command is in turn and the boards are read. -/
theorem executeAction_move_eq {game : Game} {role : Role} {s t : Nat} {now : Int}
    {eb mb : Board} {su : GameUnit}
    (hturn : game.turn = role) (hphase : game.phase = .playing)
    (he : game.board (enemyBoardKey role) = some eb)
    (hm : game.board (myBoardKey role) = some mb) (hs : cellAt mb s = some su) :
    executeAction game role .MOVE s t now =
      if (cellAt mb t).isSome then .noUpdate
      else .update (endTurn game role now
        (({} : Updates).setBoard (myBoardKey role)
          (setCell (setCell mb t (some su)) s none))
        (game.logs ++ [{ text := roleLabel role ++ " movió una unidad.",
                         type := "move", time := now }])) := by
  unfold executeAction
  simp only [hturn, hphase, he, hm, hs, ne_eq, not_true_eq_false, if_false]

/-- C17: in phase `playing`, on the mover's turn, with the enemy board stored
(as it is in every match that reached `playing`), a move sends an update
exactly when the source cell of the mover's board holds a unit and the target
cell of that board is empty.  The board sent then holds that very unit in the
target cell and nothing in the source cell, every other cell is as before, the
number of units on it is the same, and the enemy board is not written; when no
update is sent the document is unchanged. -/
theorem move_spec (game : Game) (role : Role) (s t : Nat) (now : Int) (eb : Board)
    (hturn : game.turn = role) (hphase : game.phase = .playing)
    (he : game.board (enemyBoardKey role) = some eb) :
    ((∃ u, executeAction game role .MOVE s t now = .update u) ↔
        ∃ mb su, game.board (myBoardKey role) = some mb ∧
          cellAt mb s = some su ∧ cellAt mb t = none) ∧
      (∀ u mb su, executeAction game role .MOVE s t now = .update u →
        game.board (myBoardKey role) = some mb → cellAt mb s = some su →
        ∃ b, u.board (myBoardKey role) = some b ∧
          (afterAction game role .MOVE s t now).board (myBoardKey role) = some b ∧
          cellAt b t = some su ∧ cellAt b s = none ∧
          (∀ j, j ≠ s → j ≠ t → cellAt b j = cellAt mb j) ∧
          placedCount b = placedCount mb ∧
          u.board (enemyBoardKey role) = none ∧
          (afterAction game role .MOVE s t now).board (enemyBoardKey role)
            = game.board (enemyBoardKey role)) ∧
      ((¬ ∃ mb su, game.board (myBoardKey role) = some mb ∧
          cellAt mb s = some su ∧ cellAt mb t = none) →
        (∀ u, executeAction game role .MOVE s t now ≠ .update u) ∧
          afterAction game role .MOVE s t now = game) := by
  have key : (∃ mb su, game.board (myBoardKey role) = some mb ∧
        cellAt mb s = some su ∧ cellAt mb t = none) ∨
      executeAction game role .MOVE s t now = .noUpdate ∨
      executeAction game role .MOVE s t now = .threw := by
    cases hm : game.board (myBoardKey role) with
    | none =>
      right; right
      unfold executeAction
      simp only [hturn, hphase, he, hm, ne_eq, not_true_eq_false, if_false]
    | some mb =>
      cases hs : cellAt mb s with
      | none =>
        right; left
        unfold executeAction
        simp only [hturn, hphase, he, hm, hs, ne_eq, not_true_eq_false, if_false]
      | some su =>
        rw [executeAction_move_eq hturn hphase he hm hs]
        cases ht : cellAt mb t with
        | none => left; exact ⟨mb, su, rfl, hs, ht⟩
        | some tu => right; left; simp
  refine ⟨⟨?_, ?_⟩, ?_, ?_⟩
  · rintro ⟨u, hu⟩
    rcases key with hk | hk | hk
    · exact hk
    · rw [hk] at hu; cases hu
    · rw [hk] at hu; cases hu
  · rintro ⟨mb, su, hm, hs, ht⟩
    rw [executeAction_move_eq hturn hphase he hm hs]
    simp [ht]
  · intro u mb su hu hm hs
    rw [afterAction_of_update hu]
    rw [executeAction_move_eq hturn hphase he hm hs] at hu
    cases ht : cellAt mb t with
    | some tu => simp [ht] at hu
    | none =>
      simp only [ht, Option.isSome_none, Bool.false_eq_true, if_false,
        Outcome.update.injEq] at hu
      subst hu
      have hne := enemyBoardKey_ne_myBoardKey role
      have hst : s ≠ t := by
        intro e
        rw [e, ht] at hs
        cases hs
      have hmy : (endTurn game role now
          (({} : Updates).setBoard (myBoardKey role) (setCell (setCell mb t (some su)) s none))
          (game.logs ++ [{ text := roleLabel role ++ " movió una unidad.",
                           type := "move", time := now }])).board (myBoardKey role)
          = some (setCell (setCell mb t (some su)) s none) := by
        rw [endTurn_board, Updates.board_setBoard, if_pos rfl]
      have hen : (endTurn game role now
          (({} : Updates).setBoard (myBoardKey role) (setCell (setCell mb t (some su)) s none))
          (game.logs ++ [{ text := roleLabel role ++ " movió una unidad.",
                           type := "move", time := now }])).board (enemyBoardKey role)
          = none := by
        rw [endTurn_board, Updates.board_setBoard, if_neg hne]
        cases role <;> rfl
      refine ⟨_, hmy, by rw [applyUpdates_board, hmy], ?_, ?_, ?_, ?_, hen,
        by rw [applyUpdates_board, hen]⟩
      · rw [cellAt_setCell, if_neg (Ne.symm hst), cellAt_setCell, if_pos rfl]
      · rw [cellAt_setCell, if_pos rfl]
      · intro j hjs hjt
        rw [cellAt_setCell, if_neg hjs, cellAt_setCell, if_neg hjt]
      · have h1 := placedCount_setCell mb t (some su)
        have h2 := placedCount_setCell (setCell mb t (some su)) s none
        rw [ht] at h1
        rw [cellAt_setCell, if_neg hst, hs] at h2
        simp at h1 h2
        omega
  · intro hno
    have hg : afterAction game role .MOVE s t now = game := by
      unfold afterAction
      rcases key with hk | hk | hk
      · exact absurd hk hno
      · rw [hk]
      · rw [hk]
    refine ⟨?_, hg⟩
    intro u hu
    rcases key with hk | hk | hk
    · exact absurd hk hno
    · rw [hk] at hu; cases hu
    · rw [hk] at hu; cases hu

/-- C17 on the sample match: the host moves its Commander from cell 0 to the
empty cell 10. -/
theorem move_spec_witness :
    ∃ u b, executeAction sampleMatch .host .MOVE 0 10 1000 = .update u ∧
      u.board (myBoardKey .host) = some b ∧
      cellAt b 10 = some (sampleUnit .COMMANDER 64 "h-cmd") ∧ cellAt b 0 = none ∧
      placedCount b = placedCount sampleHostBoard :=
  match (move_spec sampleMatch .host 0 10 1000 _ rfl rfl rfl).2.1 _ sampleHostBoard
      (sampleUnit .COMMANDER 64 "h-cmd") rfl rfl rfl with
  | ⟨b, hb, _, ht, hs, _, hc, _⟩ => ⟨_, b, rfl, hb, ht, hs, hc⟩

/-! ## Units through the turns -/

/-- The boards of the update sent by a move. -/
theorem executeAction_move_fields {game : Game} {role : Role} {s t : Nat} {now : Int}
    {u : Updates} {mb : Board} {su : GameUnit}
    (h : executeAction game role .MOVE s t now = .update u)
    (hm : game.board (myBoardKey role) = some mb) (hs : cellAt mb s = some su) :
    cellAt mb t = none ∧
      u.board (myBoardKey role) = some (setCell (setCell mb t (some su)) s none) ∧
      u.board (enemyBoardKey role) = none := by
  obtain ⟨hturn, hphase, eb, mb2, su2, he, hm2, -⟩ := executeAction_update_inv h
  rw [hm] at hm2
  cases hm2
  rw [executeAction_move_eq hturn hphase he hm hs] at h
  cases ht : cellAt mb t with
  | some tu => simp [ht] at h
  | none =>
    simp only [ht, Option.isSome_none, Bool.false_eq_true, if_false,
      Outcome.update.injEq] at h
    subst h
    have hne := enemyBoardKey_ne_myBoardKey role
    refine ⟨rfl, ?_, ?_⟩
    · rw [endTurn_board, Updates.board_setBoard, if_pos rfl]
    · rw [endTurn_board, Updates.board_setBoard, if_neg hne]
      cases role <;> rfl

/-- The boards of the update sent by a heal. -/
theorem executeAction_heal_fields {game : Game} {role : Role} {s t : Nat} {now : Int}
    {u : Updates} {mb : Board}
    (h : executeAction game role .HEAL s t now = .update u)
    (hm : game.board (myBoardKey role) = some mb) :
    ∃ tu, cellAt mb t = some tu ∧ tu.hp < tu.maxHp ∧
      u.board (myBoardKey role)
        = some (setCell mb t (some { tu with hp := min (tu.hp + 10) tu.maxHp })) ∧
      u.board (enemyBoardKey role) = none := by
  obtain ⟨hturn, hphase, eb, mb2, su, he, hm2, hs⟩ := executeAction_update_inv h
  rw [hm] at hm2
  cases hm2
  rw [executeAction_heal_eq hturn hphase he hm hs] at h
  split at h
  · cases h
  · split at h
    · cases h
    · rename_i tu ht
      split at h
      · rename_i hlt
        simp only [Outcome.update.injEq] at h
        subst h
        have hne := enemyBoardKey_ne_myBoardKey role
        refine ⟨tu, ht, hlt, ?_, ?_⟩
        · rw [endTurn_board, Updates.board_setBoard, if_pos rfl]
        · rw [endTurn_board, Updates.board_setBoard, if_neg hne]
          cases role <;> rfl
      · cases h

/-- A board key is the key of the acting side or of its enemy. -/
theorem boardKey_cases (role : Role) (key : BoardKey) :
    key = myBoardKey role ∨ key = enemyBoardKey role := by
  cases role <;> cases key <;> decide

/-- What an accepted action does to one unit: the unit of cell `i` of the board
`key` is afterwards in the cell `cellAfterAction` gives, with the same type, id
and maximum, and revealed if it was; or that cell is empty, which only happens
to an enemy unit in an attacked cell whose hit points do not exceed the
damage. -/
theorem unit_after_action {game : Game} {role : Role} {a : ActionType} {s t : Nat}
    {now : Int} {u : Updates} {mb : Board} {su : GameUnit}
    (h : executeAction game role a s t now = .update u)
    (hm : game.board (myBoardKey role) = some mb) (hs : cellAt mb s = some su)
    (key : BoardKey) (b : Board) (i : Nat) (v : GameUnit)
    (hb : game.board key = some b) (hv : cellAt b i = some v) :
    ∃ b2, (applyUpdates game u).board key = some b2 ∧
      ((cellAt b2 (cellAfterAction role a s t key i) = none ∧ a = .ATTACK ∧
          key = enemyBoardKey role ∧
          i ∈ calculateAttackIndices s t (UNIT_TYPES su.type).range ∧
          v.hp ≤ (UNIT_TYPES su.type).dmg) ∨
        ∃ v2, cellAt b2 (cellAfterAction role a s t key i) = some v2 ∧
          v2.type = v.type ∧ v2.id = v.id ∧ v2.maxHp = v.maxHp ∧
          (v.revealedPosition = true → v2.revealedPosition = true)) := by
  obtain ⟨-, -, eb, -, -, he, -, -⟩ := executeAction_update_inv h
  have hne := enemyBoardKey_ne_myBoardKey role
  have same : ∀ b2, (applyUpdates game u).board key = some b2 →
      cellAt b2 (cellAfterAction role a s t key i) = some v →
      ∃ b3, (applyUpdates game u).board key = some b3 ∧
      ((cellAt b3 (cellAfterAction role a s t key i) = none ∧ a = .ATTACK ∧
          key = enemyBoardKey role ∧
          i ∈ calculateAttackIndices s t (UNIT_TYPES su.type).range ∧
          v.hp ≤ (UNIT_TYPES su.type).dmg) ∨
        ∃ v2, cellAt b3 (cellAfterAction role a s t key i) = some v2 ∧
          v2.type = v.type ∧ v2.id = v.id ∧ v2.maxHp = v.maxHp ∧
          (v.revealedPosition = true → v2.revealedPosition = true)) :=
    fun b2 h1 h2 => ⟨b2, h1, Or.inr ⟨v, h2, rfl, rfl, rfl, fun x => x⟩⟩
  rcases boardKey_cases role key with hk | hk
  · -- the board of the acting side
    subst hk
    rw [hm] at hb
    cases hb
    cases a with
    | MOVE =>
      obtain ⟨ht, hmy, -⟩ := executeAction_move_fields h hm hs
      have hst : s ≠ t := by
        intro e; rw [e, ht] at hs; cases hs
      by_cases his : i = s
      · subst his
        rw [hs] at hv
        cases hv
        refine same _ (by rw [applyUpdates_board, hmy]) ?_
        simp only [cellAfterAction, and_self, if_true]
        rw [cellAt_setCell, if_neg (Ne.symm hst), cellAt_setCell, if_pos rfl]
      · have hit : i ≠ t := by
          intro e; rw [e, ht] at hv; cases hv
        refine same _ (by rw [applyUpdates_board, hmy]) ?_
        simp only [cellAfterAction, his, and_false, if_false]
        rw [cellAt_setCell, if_neg his, cellAt_setCell, if_neg hit]
        exact hv
    | ATTACK =>
      obtain ⟨-, hmy, -⟩ := executeAction_attack_fields h he hm hs
      have hpos : cellAfterAction role .ATTACK s t (myBoardKey role) i = i := by
        simp [cellAfterAction]
      rw [hpos]
      by_cases his : i = s
      · subst his
        rw [hs] at hv
        cases hv
        refine ⟨_, by rw [applyUpdates_board, hmy],
          Or.inr ⟨{ su with revealedPosition := true }, ?_, rfl, rfl, rfl, fun _ => rfl⟩⟩
        rw [cellAt_setCell, if_pos rfl]
      · refine ⟨_, by rw [applyUpdates_board, hmy], Or.inr ⟨v, ?_, rfl, rfl, rfl, fun x => x⟩⟩
        rw [cellAt_setCell, if_neg his]
        exact hv
    | HEAL =>
      obtain ⟨tu, ht, -, hmy, -⟩ := executeAction_heal_fields h hm
      have hpos : cellAfterAction role .HEAL s t (myBoardKey role) i = i := by
        simp [cellAfterAction]
      rw [hpos]
      by_cases hit : i = t
      · subst hit
        rw [ht] at hv
        cases hv
        refine ⟨_, by rw [applyUpdates_board, hmy],
          Or.inr ⟨{ v with hp := min (v.hp + 10) v.maxHp }, ?_, rfl, rfl, rfl, fun x => x⟩⟩
        rw [cellAt_setCell, if_pos rfl]
      · refine ⟨_, by rw [applyUpdates_board, hmy], Or.inr ⟨v, ?_, rfl, rfl, rfl, fun x => x⟩⟩
        rw [cellAt_setCell, if_neg hit]
        exact hv
  · -- the board of the enemy
    subst hk
    rw [he] at hb
    cases hb
    have hpos : cellAfterAction role a s t (enemyBoardKey role) i = i := by
      simp [cellAfterAction, hne]
    rw [hpos]
    cases a with
    | MOVE =>
      obtain ⟨-, -, hen⟩ := executeAction_move_fields h hm hs
      exact ⟨b, by rw [applyUpdates_board, hen, he], Or.inr ⟨v, hv, rfl, rfl, rfl, fun x => x⟩⟩
    | HEAL =>
      obtain ⟨tu, -, -, -, hen⟩ := executeAction_heal_fields h hm
      exact ⟨b, by rw [applyUpdates_board, hen, he], Or.inr ⟨v, hv, rfl, rfl, rfl, fun x => x⟩⟩
    | ATTACK =>
      obtain ⟨hen, -, -⟩ := executeAction_attack_fields h he hm hs
      have hnd := attackIndices_nodup s t (UNIT_TYPES su.type).range
      refine ⟨_, by rw [applyUpdates_board, hen], ?_⟩
      rw [attackLoop_cell]
      have hv0 : cellAt (attackInit b game.logs).enemyBoard i = some v := hv
      rw [hv0]
      by_cases hi : i ∈ calculateAttackIndices s t (UNIT_TYPES su.type).range
      · rw [List.count_eq_one_of_mem hnd hi]
        by_cases hd : v.hp - (UNIT_TYPES su.type).dmg ≤ 0
        · left
          refine ⟨?_, rfl, rfl, hi, by omega⟩
          simp [hitCell, hd]
        · right
          refine ⟨{ v with hp := v.hp - (UNIT_TYPES su.type).dmg, wasHit := true }, ?_,
            rfl, rfl, rfl, fun x => x⟩
          simp [hitCell, hd]
      · rw [List.count_eq_zero_of_not_mem hi]
        exact Or.inr ⟨v, rfl, rfl, rfl, rfl, fun x => x⟩

/-- A unit that is revealed stays revealed, in the cell `trackUnit` follows it
to, through any sequence of calls of `executeAction`. -/
theorem revealed_tracked (key : BoardKey) (acts : List Action) :
    ∀ (g : Game) (b : Board) (i : Nat) (v : GameUnit) (j : Nat),
      g.board key = some b → cellAt b i = some v → v.revealedPosition = true →
      trackUnit g key i acts = some j →
      ∃ b2 v2, (afterActions g acts).board key = some b2 ∧ cellAt b2 j = some v2 ∧
        v2.revealedPosition = true ∧ v2.id = v.id ∧ v2.type = v.type := by
  induction acts with
  | nil =>
    intro g b i v j hb hv hr ht
    simp only [trackUnit, Option.some.injEq] at ht
    subst ht
    exact ⟨b, v, hb, hv, hr, rfl, rfl⟩
  | cons a rest ih =>
    intro g b i v j hb hv hr ht
    cases hex : executeAction g a.role a.actionType a.sourceIdx a.targetIdx a.now with
    | noUpdate =>
      have hg : afterAction g a.role a.actionType a.sourceIdx a.targetIdx a.now = g := by
        unfold afterAction; rw [hex]
      simp only [trackUnit, hex] at ht
      simp only [afterActions, hg]
      exact ih g b i v j hb hv hr ht
    | threw =>
      have hg : afterAction g a.role a.actionType a.sourceIdx a.targetIdx a.now = g := by
        unfold afterAction; rw [hex]
      simp only [trackUnit, hex] at ht
      simp only [afterActions, hg]
      exact ih g b i v j hb hv hr ht
    | update u =>
      obtain ⟨-, -, eb, mb, su, -, hm, hs⟩ := executeAction_update_inv hex
      obtain ⟨b2, hb2, hcell⟩ := unit_after_action hex hm hs key b i v hb hv
      simp only [trackUnit, hex, hb2] at ht
      simp only [afterActions, afterAction_of_update hex]
      rcases hcell with ⟨hnone, -⟩ | ⟨v2, hv2, hty, hid, -, hrev⟩
      · rw [hnone] at ht
        simp at ht
      · rw [hv2] at ht
        simp only [Option.isSome_some, if_true] at ht
        obtain ⟨b3, v3, h1, h2, h3, h4, h5⟩ :=
          ih (applyUpdates g u) b2 _ v2 j hb2 hv2 (hrev hr) ht
        exact ⟨b3, v3, h1, h2, h3, h4.trans hid, h5.trans hty⟩

/-- One call of the attack callback leaves `winner` and `phase` as they are
when the visited cell holds no Commander that the hit destroys. -/
theorem attackStep_no_kill (role : Role) (st : UnitStats) (now : Int) (acc : AttackAcc)
    (idx : Nat)
    (hsafe : ∀ c, cellAt acc.enemyBoard idx = some c → c.type = .COMMANDER → st.dmg < c.hp) :
    (attackStep role st now acc idx).winner = acc.winner ∧
      (attackStep role st now acc idx).phase = acc.phase := by
  unfold attackStep
  cases hc : cellAt acc.enemyBoard idx with
  | none => exact ⟨rfl, rfl⟩
  | some c =>
    simp only
    split
    · rename_i hd
      split
      · rename_i hty
        have := hsafe c hc hty
        omega
      · exact ⟨rfl, rfl⟩
    · exact ⟨rfl, rfl⟩

/-- The loop of an attack leaves `winner` and `phase` as they are when no
visited cell holds a Commander that the hit destroys. -/
theorem attackLoop_no_kill (role : Role) (st : UnitStats) (now : Int) (l : List Nat) :
    ∀ acc : AttackAcc, l.Nodup →
      (∀ idx ∈ l, ∀ c, cellAt acc.enemyBoard idx = some c → c.type = .COMMANDER →
        st.dmg < c.hp) →
      (attackLoop role st now acc l).winner = acc.winner ∧
        (attackLoop role st now acc l).phase = acc.phase := by
  induction l with
  | nil => intro acc _ _; exact ⟨rfl, rfl⟩
  | cons a l ih =>
    intro acc hnd hsafe
    have hstep := attackStep_no_kill role st now acc a
      (fun c hc hty => hsafe a (List.mem_cons_self a l) c hc hty)
    have hnd2 := (List.nodup_cons.mp hnd)
    have hrest := ih (attackStep role st now acc a) hnd2.2 (by
      intro idx hidx c hc hty
      have hne : idx ≠ a := fun e => hnd2.1 (e ▸ hidx)
      rw [attackStep_cell, if_neg hne] at hc
      exact hsafe idx (List.mem_cons_of_mem a hidx) c hc hty)
    exact ⟨hrest.1.trans hstep.1, hrest.2.trans hstep.2⟩

/-- A move and a heal write neither `winner` nor `phase`. -/
theorem executeAction_quiet {game : Game} {role : Role} {a : ActionType} {s t : Nat}
    {now : Int} {u : Updates} (h : executeAction game role a s t now = .update u)
    (ha : a ≠ .ATTACK) : u.winner = none ∧ u.phase = none := by
  obtain ⟨hturn, hphase, eb, mb, su, he, hm, hs⟩ := executeAction_update_inv h
  cases a with
  | ATTACK => exact absurd rfl ha
  | MOVE =>
    rw [executeAction_move_eq hturn hphase he hm hs] at h
    split at h
    · cases h
    · simp only [Outcome.update.injEq] at h
      subst h
      rw [(endTurn_winner_phase_turn _ _ _ _ _).1, (endTurn_winner_phase_turn _ _ _ _ _).2.1,
        (Updates.setBoard_fields _ _ _).2.2.2.2.2.1, (Updates.setBoard_fields _ _ _).2.2.2.2.2.2]
      exact ⟨rfl, rfl⟩
  | HEAL =>
    rw [executeAction_heal_eq hturn hphase he hm hs] at h
    split at h
    · cases h
    · split at h
      · cases h
      · split at h
        · simp only [Outcome.update.injEq] at h
          subst h
          rw [(endTurn_winner_phase_turn _ _ _ _ _).1,
            (endTurn_winner_phase_turn _ _ _ _ _).2.1,
            (Updates.setBoard_fields _ _ _).2.2.2.2.2.1,
            (Updates.setBoard_fields _ _ _).2.2.2.2.2.2]
          exact ⟨rfl, rfl⟩
        · cases h

/-- C21: after an accepted attack the attacking unit, in its cell of the
attacker's board, has `revealedPosition = true`.  No accepted call of
`executeAction` clears the flag of any unit: a revealed unit is afterwards
revealed, with the same id and type, in the cell it stands in (the target cell
when it is the unit moved, its own cell otherwise), unless it is an enemy unit
in an attacked cell whose hit points do not exceed the damage, which is
removed.  So through every sequence of later calls of `executeAction`, by
either side, a revealed unit, and the attacking unit in particular, is still
revealed in the cell it has been followed to. -/
theorem revealedPosition_persists (game : Game) (role : Role) (s t : Nat) (now : Int)
    (u : Updates) (mb : Board) (su : GameUnit)
    (h : executeAction game role .ATTACK s t now = .update u)
    (hm : game.board (myBoardKey role) = some mb) (hs : cellAt mb s = some su) :
    (∃ b2, (afterAction game role .ATTACK s t now).board (myBoardKey role) = some b2 ∧
        cellAt b2 s = some { su with revealedPosition := true }) ∧
      (∀ (g : Game) (r : Role) (a : ActionType) (s2 t2 : Nat) (now2 : Int) (u2 : Updates)
          (mb2 : Board) (su2 : GameUnit) (key : BoardKey) (b : Board) (i : Nat) (v : GameUnit),
        executeAction g r a s2 t2 now2 = .update u2 →
        g.board (myBoardKey r) = some mb2 → cellAt mb2 s2 = some su2 →
        g.board key = some b → cellAt b i = some v → v.revealedPosition = true →
        ∃ b2, (afterAction g r a s2 t2 now2).board key = some b2 ∧
          ((cellAt b2 (cellAfterAction r a s2 t2 key i) = none ∧ a = .ATTACK ∧
              key = enemyBoardKey r ∧
              i ∈ calculateAttackIndices s2 t2 (UNIT_TYPES su2.type).range ∧
              v.hp ≤ (UNIT_TYPES su2.type).dmg) ∨
            ∃ v2, cellAt b2 (cellAfterAction r a s2 t2 key i) = some v2 ∧
              v2.revealedPosition = true ∧ v2.id = v.id ∧ v2.type = v.type)) ∧
      (∀ (g : Game) (key : BoardKey) (b : Board) (i : Nat) (v : GameUnit)
          (acts : List Action) (j : Nat),
        g.board key = some b → cellAt b i = some v → v.revealedPosition = true →
        trackUnit g key i acts = some j →
        ∃ b2 v2, (afterActions g acts).board key = some b2 ∧ cellAt b2 j = some v2 ∧
          v2.revealedPosition = true ∧ v2.id = v.id ∧ v2.type = v.type) ∧
      (∀ (acts : List Action) (j : Nat),
        trackUnit (afterAction game role .ATTACK s t now) (myBoardKey role) s acts = some j →
        ∃ b2 v2, (afterActions (afterAction game role .ATTACK s t now) acts).board
              (myBoardKey role) = some b2 ∧
          cellAt b2 j = some v2 ∧ v2.revealedPosition = true ∧
          v2.id = su.id ∧ v2.type = su.type) := by
  obtain ⟨-, -, eb, -, -, he, -, -⟩ := executeAction_update_inv h
  obtain ⟨-, hmy, -⟩ := executeAction_attack_fields h he hm hs
  have hfirst : (afterAction game role .ATTACK s t now).board (myBoardKey role)
      = some (setCell mb s (some { su with revealedPosition := true })) := by
    rw [afterAction_of_update h, applyUpdates_board, hmy]
  have hcell : cellAt (setCell mb s (some { su with revealedPosition := true })) s
      = some { su with revealedPosition := true } := by
    rw [cellAt_setCell, if_pos rfl]
  refine ⟨⟨_, hfirst, hcell⟩, ?_, ?_, ?_⟩
  · intro g r a s2 t2 now2 u2 mb2 su2 key b i v hex hm2 hs2 hb hv hr
    obtain ⟨b2, hb2, hc⟩ := unit_after_action hex hm2 hs2 key b i v hb hv
    rw [afterAction_of_update hex]
    refine ⟨b2, hb2, ?_⟩
    rcases hc with hc | ⟨v2, h1, h2, h3, -, h5⟩
    · exact Or.inl hc
    · exact Or.inr ⟨v2, h1, h5 hr, h3, h2⟩
  · intro g key b i v acts j hb hv hr ht
    exact revealed_tracked key acts g b i v j hb hv hr ht
  · intro acts j ht
    exact revealed_tracked (myBoardKey role) acts _ _ s { su with revealedPosition := true } j
      hfirst hcell rfl ht

/-- C21 on the sample match: the host's Sniper at cell 1 attacks cell 60; then
the guest's Tank sweeps the host's first row, and the host moves the Sniper to
cell 11, where it is still revealed. -/
theorem revealedPosition_persists_witness :
    ∃ b2 v2,
      (afterActions (afterAction sampleMatch .host .ATTACK 1 60 1000)
          [{ role := .guest, actionType := .ATTACK, sourceIdx := 61, targetIdx := 1, now := 2000 },
           { role := .host, actionType := .MOVE, sourceIdx := 1, targetIdx := 11, now := 3000 }]).board
        (myBoardKey .host) = some b2 ∧
      cellAt b2 11 = some v2 ∧ v2.revealedPosition = true ∧
      v2.id = (sampleUnit .SNIPER 15 "h-snp").id ∧
      v2.type = (sampleUnit .SNIPER 15 "h-snp").type :=
  (revealedPosition_persists sampleMatch .host 1 60 1000 _ sampleHostBoard
      (sampleUnit .SNIPER 15 "h-snp") rfl rfl rfl).2.2.2
    [{ role := .guest, actionType := .ATTACK, sourceIdx := 61, targetIdx := 1, now := 2000 },
     { role := .host, actionType := .MOVE, sourceIdx := 1, targetIdx := 11, now := 3000 }]
    11 rfl

/-- C22: an accepted move, an accepted heal, and an accepted attack in which
every enemy Commander in an affected cell has more hit points than the
attacker's damage, write neither `phase` nor `winner`, which stay as stored,
and every Commander of either board is afterwards still on that board, with
the same id (in the target cell when it is the unit moved, in its own cell
otherwise). -/
theorem match_ends_only_by_commander_kill (game : Game) (role : Role)
    (actionType : ActionType) (s t : Nat) (now : Int) (u : Updates) (eb mb : Board)
    (su : GameUnit)
    (h : executeAction game role actionType s t now = .update u)
    (he : game.board (enemyBoardKey role) = some eb)
    (hm : game.board (myBoardKey role) = some mb) (hs : cellAt mb s = some su)
    (hsafe : actionType = .ATTACK →
      ∀ idx ∈ calculateAttackIndices s t (UNIT_TYPES su.type).range, ∀ c,
        cellAt eb idx = some c → c.type = .COMMANDER → (UNIT_TYPES su.type).dmg < c.hp) :
    u.phase = none ∧ u.winner = none ∧
      (afterAction game role actionType s t now).phase = game.phase ∧
      (afterAction game role actionType s t now).winner = game.winner ∧
      (∀ (key : BoardKey) (b : Board) (i : Nat) (c : GameUnit),
        game.board key = some b → cellAt b i = some c → c.type = .COMMANDER →
        ∃ b2 c2, (afterAction game role actionType s t now).board key = some b2 ∧
          cellAt b2 (cellAfterAction role actionType s t key i) = some c2 ∧
          c2.type = .COMMANDER ∧ c2.id = c.id) := by
  have hquiet : u.winner = none ∧ u.phase = none := by
    by_cases ha : actionType = .ATTACK
    · subst ha
      obtain ⟨-, -, hw, hp, -⟩ := executeAction_attack_fields h he hm hs
      have hl := attackLoop_no_kill role (UNIT_TYPES su.type) now
        (calculateAttackIndices s t (UNIT_TYPES su.type).range) (attackInit eb game.logs)
        (attackIndices_nodup s t (UNIT_TYPES su.type).range) (hsafe rfl)
      rw [hw, hp]
      exact hl
    · exact executeAction_quiet h ha
  rw [afterAction_of_update h]
  refine ⟨hquiet.2, hquiet.1, ?_, ?_, ?_⟩
  · simp [applyUpdates, hquiet.2]
  · simp [applyUpdates, hquiet.1]
  · intro key b i c hb hc hty
    obtain ⟨b2, hb2, hcell⟩ := unit_after_action h hm hs key b i c hb hc
    rcases hcell with ⟨-, ha, hk, hi, hle⟩ | ⟨c2, h1, h2, h3, -, -⟩
    · subst hk
      rw [he] at hb
      cases hb
      have := hsafe ha i hi c hc hty
      omega
    · exact ⟨b2, c2, hb2, h1, h2.trans hty, h3⟩

/-- C22 on the sample match: the host's Sniper at cell 1 attacks cell 60, where
the guest's Commander stands with 64 hit points. -/
theorem match_ends_only_by_commander_kill_witness :
    ∃ u, executeAction sampleMatch .host .ATTACK 1 60 1000 = .update u ∧
      u.phase = none ∧ u.winner = none ∧
      (afterAction sampleMatch .host .ATTACK 1 60 1000).phase = sampleMatch.phase ∧
      (afterAction sampleMatch .host .ATTACK 1 60 1000).winner = sampleMatch.winner :=
  match match_ends_only_by_commander_kill sampleMatch .host .ATTACK 1 60 1000 _ _
      sampleHostBoard (sampleUnit .SNIPER 15 "h-snp") rfl rfl rfl rfl
      (by
        intro _ idx hidx c hc _
        have hi : idx = 60 := List.mem_singleton.mp hidx
        subst hi
        have hc2 : some (sampleUnit .COMMANDER 64 "g-cmd") = some c := hc
        cases hc2
        decide) with
  | ⟨h1, h2, h3, h4, _⟩ => ⟨_, rfl, h1, h2, h3, h4⟩

end BT
